import Mathlib

/-!
# Verification of the mutualaid regex extraction pipeline

A shallow embedding of `training/peft/extract_slack_regex.py` and the
location canonicalizer of `training/peft/slack_api.py`, together with
proofs and refutations of the specification's claims.

Python strings are modelled as `List Char`; Python `re` patterns are
modelled by a small backtracking regular-expression engine (`RE`, `run`)
that mirrors CPython's leftmost, priority-ordered, greedy/lazy matching
semantics for the constructs the source uses.  Python floats are
modelled as rationals.
-/

namespace MutualAid

/-! ## Character classes (ASCII fragment, matching the inputs in scope) -/

set_option maxRecDepth 100000 in
set_option maxHeartbeats 1000000 in
set_option maxRecDepth 100000 in
set_option maxHeartbeats 4000000 in
set_option maxRecDepth 100000 in
set_option maxHeartbeats 1000000 in
set_option maxRecDepth 100000 in
set_option maxHeartbeats 1000000 in
set_option maxRecDepth 100000 in
set_option maxHeartbeats 1000000 in
/-- Python `\s` (ASCII range): space, tab, newline, carriage return,
form feed, vertical tab. -/
def isSpaceP (c : Char) : Bool :=
  c = ' ' || c = '\t' || c = '\n' || c = '\r' || c = '\x0b' || c = '\x0c'

def isDigitC (c : Char) : Bool := '0' ≤ c && c ≤ '9'

def isAlphaC (c : Char) : Bool := ('a' ≤ c && c ≤ 'z') || ('A' ≤ c && c ≤ 'Z')

/-- Python `\w` (ASCII fragment): letters, digits, underscore. -/
def isWordC (c : Char) : Bool := isAlphaC c || isDigitC c || c = '_'

def toLowerC (c : Char) : Char :=
  if 'A' ≤ c && c ≤ 'Z' then Char.ofNat (c.toNat + 32) else c

def lowerStr (s : List Char) : List Char := s.map toLowerC

/-! ## Python string helpers over `List Char` -/

/-- `needle` occurs as a contiguous substring (Python `in`). -/
def containsSub (hay needle : List Char) : Bool :=
  match hay with
  | [] => needle.isEmpty
  | _ :: t => needle.isPrefixOf hay || containsSub t needle

/-- Python `str.startswith`. -/
def startsWithL (s pre : List Char) : Bool := pre.isPrefixOf s

def dropWhileEnd (p : Char → Bool) (s : List Char) : List Char :=
  (s.reverse.dropWhile p).reverse

/-- Python `str.strip()` (strip whitespace from both ends). -/
def pyStrip (s : List Char) : List Char :=
  dropWhileEnd isSpaceP (s.dropWhile isSpaceP)

/-- Python `str.strip(chars)`. -/
def pyStripChars (cs : List Char) (s : List Char) : List Char :=
  dropWhileEnd (cs.contains ·) (s.dropWhile (cs.contains ·))

/-- Python `str.split(sep)` for a non-empty separator: split at every
occurrence, keeping empty pieces. -/
def pySplit (sep : List Char) (s : List Char) : List (List Char) :=
  go s [] s.length
where
  go (s acc : List Char) : Nat → List (List Char)
  | 0 => [acc.reverse ++ s]
  | fuel + 1 =>
    if sep ≠ [] && sep.isPrefixOf s then
      acc.reverse :: go (s.drop sep.length) [] fuel
    else
      match s with
      | [] => [acc.reverse]
      | c :: t => go t (c :: acc) fuel

/-- The part of `s` before the first occurrence of `sep`
(Python `s.split(sep)[0]`). -/
def splitFirst (sep : List Char) (s : List Char) : List Char :=
  match pySplit sep s with
  | [] => s
  | p :: _ => p

/-- Python `str.replace(old, new)` for a non-empty `old`. -/
def pyReplace (old new : List Char) (s : List Char) : List Char :=
  go s s.length
where
  go (s : List Char) : Nat → List Char
  | 0 => s
  | fuel + 1 =>
    if old ≠ [] && old.isPrefixOf s then
      new ++ go (s.drop old.length) fuel
    else
      match s with
      | [] => []
      | c :: t => c :: go t fuel

/-- Python `s.rsplit(sep, 1)`: split at the last occurrence of `sep`;
returns `none` when `sep` does not occur. -/
def rsplitOnce (sep : List Char) (s : List Char) : Option (List Char × List Char) :=
  go s
where
  go : List Char → Option (List Char × List Char)
  | [] => if sep.isPrefixOf [] then some ([], []) else none
  | c :: t =>
    match go t with
    | some (a, b) => some (c :: a, b)
    | none =>
      if sep.isPrefixOf (c :: t) then some ([], (c :: t).drop sep.length)
      else none

/-- `"\n".join pieces` and similar. -/
def joinWith (sep : List Char) : List (List Char) → List Char
  | [] => []
  | [x] => x
  | x :: y :: t => x ++ sep ++ joinWith sep (y :: t)

/-! ## A backtracking regex engine with CPython semantics

Constructs cover exactly what the source's patterns use: single-character
predicates, concatenation, ordered alternation, greedy / lazy counted
repetition, capturing groups, positive lookahead, word boundaries `\b`
and the end anchor `$` (which in Python without `re.MULTILINE` matches at
the end of the string or just before a final newline).
-/

inductive RE where
  | eps
  | pred (p : Char → Bool)
  | seq (a b : RE)
  | alt (a b : RE)
  /-- `a{lo,hi}` (`hi = none` means unbounded); `lzy` selects lazy
  (fewest-first) instead of greedy ordering.  Repetition bodies in all
  source patterns consume at least one character, so the engine demands
  progress on every iteration. -/
  | bound (lo : Nat) (hi : Option Nat) (lzy : Bool) (a : RE)
  | group (n : Nat) (a : RE)
  | look (a : RE)
  | wordB
  | lineEnd
deriving Inhabited

/-- Capture list: `(group index, start, stop)`, most recent first
(matching Python, where a group reports its last match). -/
abbrev Caps := List (Nat × Nat × Nat)

def wordBoundaryAt (s : List Char) (i : Nat) : Bool :=
  let before := match i with
    | 0 => false
    | j + 1 => match s.get? j with | some c => isWordC c | none => false
  let after := match s.get? i with | some c => isWordC c | none => false
  before != after

/-- Python `$` without `re.MULTILINE`. -/
def dollarAt (s : List Char) (i : Nat) : Bool :=
  i = s.length || (i + 1 = s.length && s.get? i = some '\n')

/-- All ways `re` can match starting at position `i`, as
`(captures, end position)` in CPython priority order (first element =
the match Python reports).  `fuel` bounds recursion depth; the initial
fuel supplied by `reFuel` is ample for every pattern/input in scope,
and exhaustion yields no match. -/
def run (s : List Char) : Nat → RE → Nat → Caps → List (Caps × Nat)
  | 0, _, _, _ => []
  | _ + 1, .eps, i, caps => [(caps, i)]
  | _ + 1, .pred p, i, caps =>
    match s.get? i with
    | some c => if p c then [(caps, i + 1)] else []
    | none => []
  | fuel + 1, .seq a b, i, caps =>
    (run s fuel a i caps).flatMap fun r => run s fuel b r.2 r.1
  | fuel + 1, .alt a b, i, caps =>
    run s fuel a i caps ++ run s fuel b i caps
  | fuel + 1, .bound lo hi lzy a, i, caps =>
    let stop : List (Caps × Nat) := if lo = 0 then [(caps, i)] else []
    let go : List (Caps × Nat) :=
      if hi = some 0 then []
      else
        (run s fuel a i caps).flatMap fun r =>
          if r.2 ≤ i then []
          else run s fuel (.bound (lo - 1) (hi.map (· - 1)) lzy a) r.2 r.1
    if lzy then stop ++ go else go ++ stop
  | fuel + 1, .group n a, i, caps =>
    (run s fuel a i caps).map fun r => ((n, i, r.2) :: r.1, r.2)
  | fuel + 1, .look a, i, caps =>
    if (run s fuel a i caps).isEmpty then [] else [(caps, i)]
  | _ + 1, .wordB, i, caps => if wordBoundaryAt s i then [(caps, i)] else []
  | _ + 1, .lineEnd, i, caps => if dollarAt s i then [(caps, i)] else []

def reSize : RE → Nat
  | .eps | .pred _ | .wordB | .lineEnd => 1
  | .seq a b | .alt a b => reSize a + reSize b + 1
  | .bound _ _ _ a | .group _ a | .look a => reSize a + 1

/-- Generous fuel: recursion depth never exceeds it for the patterns in
scope (every repetition iteration consumes a character). -/
def reFuel (re : RE) (s : List Char) : Nat :=
  (reSize re + 2) * (s.length + 2) * 4

/-- `re.match` (anchored at position `i`, by default 0): Python's
reported match, `(captures, end)`. -/
def reMatchAt (re : RE) (s : List Char) (i : Nat) : Option (Caps × Nat) :=
  (run s (reFuel re s) re i []).head?

def reMatch (re : RE) (s : List Char) : Option (Caps × Nat) :=
  reMatchAt re s 0

/-- `re.search`: leftmost starting position that admits a match, then
priority order — result `(start, captures, end)`. -/
def reSearch (re : RE) (s : List Char) : Option (Nat × Caps × Nat) :=
  go 0 (s.length + 1)
where
  go (i : Nat) : Nat → Option (Nat × Caps × Nat)
  | 0 => none
  | fuel + 1 =>
    match reMatchAt re s i with
    | some (caps, j) => some (i, caps, j)
    | none => if i < s.length then go (i + 1) fuel else none

def sliceL (s : List Char) (a b : Nat) : List Char := (s.drop a).take (b - a)

/-- `match.group(n)`: `none` when the group did not participate. -/
def capGroup (s : List Char) (caps : Caps) (n : Nat) : Option (List Char) :=
  match caps.find? (fun c => c.1 = n) with
  | some (_, a, b) => some (sliceL s a b)
  | none => none

/-- `re.sub(pattern, repl, s)` where `repl` may use the captures; the
patterns this is used with never match the empty string, and matches are
replaced left to right, scanning resuming after each replacement. -/
def reSub (re : RE) (repl : List Char → Caps → List Char) (s : List Char) : List Char :=
  go 0 (s.length + 1)
where
  go (i : Nat) : Nat → List Char
  | 0 => s.drop i
  | fuel + 1 =>
    match reMatchAt re s i with
    | some (caps, j) =>
      if j ≤ i then
        -- empty match: emit replacement, copy one char, advance (CPython)
        repl s caps ++ (s.drop i).take 1 ++ (if i < s.length then go (i + 1) fuel else [])
      else
        repl s caps ++ go j fuel
    | none =>
      match s.get? i with
      | some c => c :: go (i + 1) fuel
      | none => []

/-- Plain-text substitution `re.sub(pat, lit, s)`. -/
def reSubLit (re : RE) (lit : List Char) (s : List Char) : List Char :=
  reSub re (fun _ _ => lit) s

/-- `re.split` for patterns without capturing groups that never match
empty. -/
def reSplit (re : RE) (s : List Char) : List (List Char) :=
  go 0 [] (s.length + 1)
where
  go (i : Nat) (acc : List Char) : Nat → List (List Char)
  | 0 => [acc.reverse ++ s.drop i]
  | fuel + 1 =>
    match reMatchAt re s i with
    | some (_, j) =>
      if j ≤ i then
        match s.get? i with
        | some c => go (i + 1) (c :: acc) fuel
        | none => [acc.reverse]
      else
        acc.reverse :: go j [] fuel
    | none =>
      match s.get? i with
      | some c => go (i + 1) (c :: acc) fuel
      | none => [acc.reverse]

/-! ### Pattern construction helpers -/

/-- Literal character, case-sensitive. -/
def chr (c : Char) : RE := .pred (· = c)

/-- Literal character under `re.IGNORECASE`. -/
def chrCI (c : Char) : RE := .pred (fun x => toLowerC x = toLowerC c)

def seqAll : List RE → RE
  | [] => .eps
  | [r] => r
  | r :: t => .seq r (seqAll t)

def altAll : List RE → RE
  | [] => .pred (fun _ => false)
  | [r] => r
  | r :: t => .alt r (altAll t)

/-- Case-sensitive literal string. -/
def str (w : String) : RE := seqAll (w.data.map chr)

/-- Literal string under `re.IGNORECASE`. -/
def strCI (w : String) : RE := seqAll (w.data.map chrCI)

/-- Character class from an explicit list. -/
def cls (cs : List Char) : RE := .pred (cs.contains ·)

/-- Negated character class. -/
def ncls (cs : List Char) : RE := .pred (!cs.contains ·)

def star (r : RE) : RE := .bound 0 none false r
def plus (r : RE) : RE := .bound 1 none false r
def opt (r : RE) : RE := .bound 0 (some 1) false r
/-- `\s+` / `\s*`. -/
def wsPlus : RE := plus (.pred isSpaceP)
def wsStar : RE := star (.pred isSpaceP)
/-- `.` in Python (without `re.DOTALL`): any character except newline. -/
def dotP : RE := .pred (· ≠ '\n')

/-- Shorthand: a Lean string literal as a Python string value. -/
def L (s : String) : List Char := s.data

/-- Python `dict.get` over an insertion-ordered association list. -/
def lookupL {α : Type} (m : List (List Char × α)) (k : List Char) : Option α :=
  match m with
  | [] => none
  | p :: rest => if p.1 = k then some p.2 else lookupL rest k

/-- Python `str.split()` (no argument): split on whitespace runs,
dropping empty pieces. -/
def pySplitWs (s : List Char) : List (List Char) :=
  ((pySplit (L " ") (s.map fun c => if isSpaceP c then ' ' else c)).filter (· ≠ []))

def digitsToNat (ds : List Char) : Nat :=
  ds.foldl (fun acc c => 10 * acc + (c.toNat - '0'.toNat)) 0

/-- Python `float()` restricted to the shapes the quantity capture can
take (`\d+` optionally followed by `.\d+`); other strings — on which the
source's `try/except` would yield `None` — give `none`. -/
def parseDecimal (s : List Char) : Option ℚ :=
  let intPart := s.takeWhile isDigitC
  let rest := s.dropWhile isDigitC
  if intPart = [] then none
  else
    match rest with
    | [] => some (digitsToNat intPart)
    | '.' :: frac =>
      if frac ≠ [] && frac.all isDigitC then
        some ((digitsToNat intPart : ℚ) + (digitsToNat frac : ℚ) / ((10 : ℚ) ^ frac.length))
      else none
    | _ => none

/-- Python `round(x)` on an exact value: nearest integer, ties to even. -/
def roundHalfEven (x : ℚ) : ℤ :=
  if x - (⌊x⌋ : ℚ) < 1 / 2 then ⌊x⌋
  else if x - (⌊x⌋ : ℚ) > 1 / 2 then ⌊x⌋ + 1
  else if Even ⌊x⌋ then ⌊x⌋ else ⌊x⌋ + 1

/-- Python `round(x, 2)`. -/
def pyRound2 (x : ℚ) : ℚ := (roundHalfEven (100 * x) : ℚ) / 100

namespace Extract
/-! ## `training/peft/extract_slack_regex.py` -/

/-- `NUMBER_WORDS`, combined with the `str(...)` rendering that
`numberize_words` applies to the numeric values (`str(2) = "2"`,
`str(0.5) = "0.5"`). -/
def NUMBER_WORDS : List (List Char × List Char) :=
  [(L "zero", L "0"), (L "one", L "1"), (L "two", L "2"), (L "three", L "3"),
   (L "four", L "4"), (L "five", L "5"), (L "six", L "6"), (L "seven", L "7"),
   (L "eight", L "8"), (L "nine", L "9"), (L "ten", L "10"), (L "eleven", L "11"),
   (L "twelve", L "12"), (L "half", L "0.5")]

def ITEM_UNIT_MAP : List (List Char × List Char) :=
  [(L "cs", L "case"), (L "case", L "case"), (L "cases", L "case"),
   (L "box", L "box"), (L "boxes", L "box"),
   (L "bin", L "bin"), (L "bins", L "bin"),
   (L "bag", L "bag"), (L "bags", L "bag"),
   (L "shopping bag", L "bag"), (L "shopping bags", L "bag"),
   (L "tote", L "tote"), (L "totes", L "tote"),
   (L "crate", L "crate"), (L "crates", L "crate"),
   (L "flat", L "flat"), (L "flats", L "flat"),
   (L "pkg", L "package"), (L "pkgs", L "package"),
   (L "package", L "package"), (L "packages", L "package"),
   (L "pallet", L "pallet"), (L "pallets", L "pallet"),
   (L "lb", L "lb"), (L "lbs", L "lb"), (L "pound", L "lb"), (L "pounds", L "lb"),
   (L "gal", L "gallon"), (L "gals", L "gallon"),
   (L "gallon", L "gallon"), (L "gallons", L "gallon"),
   (L "dozen", L "dozen"), (L "dz", L "dozen"),
   (L "bottle", L "bottle"), (L "bottles", L "bottle"),
   (L "can", L "can"), (L "cans", L "can"),
   (L "loaf", L "loaf"), (L "loaves", L "loaf"),
   (L "bunch", L "bunch"), (L "bunches", L "bunch"),
   (L "tray", L "tray"), (L "trays", L "tray"),
   (L "jar", L "jar"), (L "jars", L "jar"),
   (L "clamshell", L "clamshell"), (L "clamshells", L "clamshell")]

structure ParsedItem where
  name : List Char
  quantity : Option ℚ
  unit : Option (List Char)
  estimated_lbs : Option ℚ
  subcategory : List Char
deriving DecidableEq, Repr

/-- `normalize_text`. -/
def normalize_text (text : List Char) : List Char :=
  pyStrip (pyReplace (L "\r") (L "\n")
    (pyReplace (L "\r\n") (L "\n")
      (pyReplace (L " ") (L " ") text)))

/-- `\b(zero|one|...|twelve|half)\b` with `re.IGNORECASE`; the word is
wrapped in group 1 so the replacement callback can read it. -/
def numberWordsRE : RE :=
  seqAll [.wordB,
    .group 1 (altAll ((NUMBER_WORDS.map Prod.fst).map fun w => seqAll (w.map chrCI))),
    .wordB]

/-- `numberize_words`. -/
def numberize_words (text : List Char) : List Char :=
  reSub numberWordsRE
    (fun s caps =>
      let word := lowerStr ((capGroup s caps 1).getD [])
      ((lookupL NUMBER_WORDS word).getD word))
    text

/-- `re.sub(r"[;,.]+$", ...)` pattern. -/
def trailPunctRE : RE := .seq (plus (cls (L ";,."))) .lineEnd

/-- `clean_location`. -/
def clean_location (value : List Char) : List Char :=
  let cleaned := reSubLit trailPunctRE [] value
  let cleaned := reSubLit wsPlus (L " ") cleaned
  pyStrip cleaned

/-- `\s[-–—]\s` (the em/en-dash clause splitter). -/
def dashRE : RE := seqAll [.pred isSpaceP, cls (L "-–—"), .pred isSpaceP]

/-- `(?:dropped\s+off\s+from|dropped\s+from|drop\s+off\s+from)\s+(.+)`,
`re.IGNORECASE`. -/
def rescueDropRE : RE :=
  seqAll
    [altAll
      [seqAll [strCI "dropped", wsPlus, strCI "off", wsPlus, strCI "from"],
       seqAll [strCI "dropped", wsPlus, strCI "from"],
       seqAll [strCI "drop", wsPlus, strCI "off", wsPlus, strCI "from"]],
     wsPlus, .group 1 (plus dotP)]

/-- The generic rescue pattern of `extract_rescue_location`
(`picked up ... from | rescued from | ... | scooped ... from`),
`re.IGNORECASE`. -/
def rescueMainRE : RE :=
  seqAll
    [altAll
      [seqAll [strCI "picked", wsPlus, strCI "up", wsPlus,
               opt (.seq (strCI "some") wsPlus),
               opt (.seq (strCI "produce") wsPlus), strCI "from"],
       seqAll [strCI "rescued", wsPlus, strCI "from"],
       seqAll [strCI "rescue", wsPlus, strCI "from"],
       seqAll [strCI "pickup", opt (strCI "ed"), wsPlus, strCI "from"],
       seqAll [strCI "earlier", wsPlus, strCI "today", wsPlus, strCI "from"],
       seqAll [strCI "today", wsPlus, strCI "from"],
       seqAll [strCI "scooped", wsPlus, opt (.seq (strCI "this") wsPlus), strCI "from"]],
     wsPlus, .group 1 (plus dotP)]

/-- `re.sub(r'\s+in\s+\w+$', '', remainder, re.IGNORECASE)` pattern. -/
def inSuffixRE : RE :=
  seqAll [wsPlus, strCI "in", wsPlus, plus (.pred isWordC), .lineEnd]

/-- `^(?:from|From)\s+([A-Z][A-Za-z0-9 &''-]{2,})` (case-sensitive;
the `^` anchor is realised by matching at position 0). -/
def simpleFromRE : RE :=
  seqAll [.alt (str "from") (str "From"), wsPlus,
    .group 1 (.seq (.pred fun c => 'A' ≤ c && c ≤ 'Z')
      (.bound 2 none false
        (.pred fun c => isAlphaC c || isDigitC c || c = ' ' || c = '&' || c = '\'' || c = '-')))]

/-- `extract_rescue_location`. -/
def extract_rescue_location (text : List Char) : List Char :=
  match reSearch rescueDropRE text with
  | some (_, caps, _) =>
    let remainder := splitFirst (L "\n") ((capGroup text caps 1).getD [])
    let remainder := splitFirst (L ":") remainder
    let remainder :=
      match reSearch dashRE remainder with
      | some (i, _, _) => remainder.take i
      | none => remainder
    clean_location remainder
  | none =>
  match reSearch rescueMainRE text with
  | some (_, caps, _) =>
    let remainder := splitFirst (L "\n") ((capGroup text caps 1).getD [])
    -- Handle "in Englewood" and similar suffixes
    let remainder := reSubLit inSuffixRE [] remainder
    let remainder := splitFirst (L ":") remainder
    let remainder :=
      match reSearch dashRE remainder with
      | some (i, _, _) => remainder.take i
      | none => remainder
    clean_location remainder
  | none =>
  match reMatch simpleFromRE text with
  | some (caps, _) => clean_location ((capGroup text caps 1).getD [])
  | none => []

/-- `[A-Za-z0-9 &'-]` (IGNORECASE leaves it unchanged). -/
def locClsChar (c : Char) : Bool :=
  isAlphaC c || isDigitC c || c = ' ' || c = '&' || c = '\'' || c = '-'

/-- `[A-Z]` under `re.IGNORECASE` (the drop-off patterns are all
searched with that flag, so it matches lower case as well). -/
def upperCI : RE := .pred isAlphaC

/-- The ordered pattern list of `extract_dropoff_location`
(all searched with `re.IGNORECASE`). -/
def dropoffPatterns : List RE :=
  [ -- (?:dropped\s+off|dropped)\s+(?:at|to|surplus\s+at)\s+(.+)
    seqAll [.alt (seqAll [strCI "dropped", wsPlus, strCI "off"]) (strCI "dropped"),
      wsPlus,
      altAll [strCI "at", strCI "to", seqAll [strCI "surplus", wsPlus, strCI "at"]],
      wsPlus, .group 1 (plus dotP)],
    -- (?:delivered|deliver|delivering)\s+(?:to|at)\s+(.+)
    seqAll [altAll [strCI "delivered", strCI "deliver", strCI "delivering"],
      wsPlus, .alt (strCI "to") (strCI "at"), wsPlus, .group 1 (plus dotP)],
    -- (?:brought|bringing|took|taking|sent|sending)\s+(?:to|at)\s+(.+)
    seqAll [altAll [strCI "brought", strCI "bringing", strCI "took",
        strCI "taking", strCI "sent", strCI "sending"],
      wsPlus, .alt (strCI "to") (strCI "at"), wsPlus, .group 1 (plus dotP)],
    -- (?:taken\s+to|going\s+to)\s+(.+)
    seqAll [.alt (seqAll [strCI "taken", wsPlus, strCI "to"])
        (seqAll [strCI "going", wsPlus, strCI "to"]),
      wsPlus, .group 1 (plus dotP)],
    -- \bfor\s+([A-Z][A-Za-z0-9 &'-]{2,})
    seqAll [.wordB, strCI "for", wsPlus,
      .group 1 (.seq upperCI (.bound 2 none false (.pred locClsChar)))],
    -- ^([A-Za-z0-9 &'-]{2,})\s+(?:took|grabbed|picked\s+up)\b
    seqAll [.group 1 (.bound 2 none false (.pred locClsChar)), wsPlus,
      altAll [strCI "took", strCI "grabbed", seqAll [strCI "picked", wsPlus, strCI "up"]],
      .wordB],
    -- (?:claimed|labeled)\s+for\s+([A-Z][A-Za-z0-9 &'-]{2,})
    seqAll [.alt (strCI "claimed") (strCI "labeled"), wsPlus, strCI "for", wsPlus,
      .group 1 (.seq upperCI (.bound 2 none false (.pred locClsChar)))] ]

/-- `re.sub(r'\s+and\s+.*$', '', remainder)` pattern (case-sensitive). -/
def andSuffixRE : RE :=
  seqAll [wsPlus, str "and", wsPlus, star dotP, .lineEnd]

/-- The sixth pattern is anchored with `^`; in the model the anchor is
expressed by searching only at position 0. -/
def dropoffAnchored : List Bool :=
  [false, false, false, false, false, true, false]

/-- `extract_dropoff_location`. -/
def extract_dropoff_location (text : List Char) : List Char :=
  match go dropoffPatterns dropoffAnchored with
  | some loc => loc
  | none =>
    if containsSub (lowerStr text) (L "taken to") && containsSub (lowerStr text) (L "fridge") then
      L "Love Fridge"
    else []
where
  finish (caps : Caps) : List Char :=
    let remainder := splitFirst (L "\n") ((capGroup text caps 1).getD [])
    let remainder := splitFirst (L ";") remainder
    let remainder := splitFirst (L ",") remainder
    -- Remove trailing "and X" patterns
    let remainder := reSubLit andSuffixRE [] remainder
    clean_location remainder
  go : List RE → List Bool → Option (List Char)
  | [], _ => none
  | pat :: pats, anchored =>
    let res :=
      if anchored.headD false then
        (reMatch pat text).map fun r => (0, r)
      else
        (reSearch pat text).map fun r => (r.1, (r.2.1, r.2.2))
    match res with
    | some (_, caps, _) => some (finish caps)
    | none => go pats (anchored.tail)

/-! ### Direction classification -/

def inboundPhrases : List (List Char) :=
  [L "rescued from", L "rescue from", L "picked up from", L "pickup from",
   L "picked up at", L "today from", L "earlier today from",
   L "drop off at uc", L "dropped off at uc", L "dropped at uc",
   L "left at uc", L "left in the warehouse", L "dropped at warehouse",
   L "dropped ", L "left in", L "left at", L "drop off"]

def outboundPhrases : List (List Char) :=
  [L "dropped off", L "drop off", L "delivered to", L "deliver to",
   L "brought to", L "took to", L "taking to", L "grabbed", L "grabbed for",
   L "took", L "took ", L "picked up for", L "for distro", L "headed to",
   L "delivered", L "delivery to", L "for love fridge", L "for lf", L "stocked"]

/-- `detect_direction`. -/
def detect_direction (text rescue_loc drop_loc : List Char) : List Char :=
  if rescue_loc ≠ [] && drop_loc ≠ [] then L "both"
  else if rescue_loc ≠ [] then L "inbound"
  else if drop_loc ≠ [] then L "outbound"
  else
    let lower := lowerStr text
    let inbound := inboundPhrases.any (containsSub lower)
    let outbound := outboundPhrases.any (containsSub lower)
    if inbound && outbound then L "both"
    else if inbound then L "inbound"
    else if outbound then L "outbound"
    else L "unknown"

/-! ### Item segmentation -/

/-- `LINE_SPLIT_RE = re.compile(r"[|;/,]+|\n+")`. -/
def lineSplitRE : RE := .alt (plus (cls (L "|;/,"))) (plus (chr '\n'))

/-- `AND_SPLIT_RE = re.compile(r"\b(?:and|&)\b")` (case-sensitive). -/
def andSplitRE : RE := seqAll [.wordB, .alt (str "and") (chr '&'), .wordB]

/-- `split_item_segments`. -/
def split_item_segments (text : List Char) : List (List Char) :=
  let text := pyReplace (L "•") (L "\n") text
  let text := reSubLit lineSplitRE (L "\n") text
  ((pySplit (L "\n") text).map (pyStripChars (L " -•\t"))).flatMap fun block =>
    if block = [] then []
    else ((reSplit andSplitRE block).map (pyStripChars (L " -•\t"))).filter (· ≠ [])

/-! ### Category inference -/

def drinksToks : List (List Char) :=
  [L "water", L "juice", L "soda", L "coffee", L "tea", L "latte", L "drink",
   L "beverage", L "milk", L "kombucha", L "sparkling", L "sports drink", L "coconut water"]

def snacksToks : List (List Char) :=
  [L "snack", L "chips", L "cracker", L "pretzel", L "cookie", L "popcorn",
   L "granola", L "trail mix", L "protein bar", L "granola bar", L "candy",
   L "nuts", L "almond", L "peanut", L "cashew", L "pistachio"]

def produceToks : List (List Char) :=
  [L "apple", L "orange", L "banana", L "little banana", L "berry", L "grape",
   L "melon", L "clementine", L "fruit", L "green", L "greens", L "lettuce",
   L "cabbage", L "potato", L "onion", L "pepper", L "tomato", L "carrot",
   L "spinach", L "produce", L "vegetable", L "brussel", L "brussels", L "pear",
   L "lemon", L "grapefruit", L "guava", L "cuke", L "cucumber", L "bean",
   L "split pea", L "broccoli", L "brocolli"]

def grainToks : List (List Char) :=
  [L "bread", L "loaf", L "loaves", L "rice", L "pasta", L "grain",
   L "tortilla", L "dessert", L "cake", L "bun"]

def meatToks : List (List Char) :=
  [L "chicken", L "beef", L "pork", L "turkey", L "meat", L "steak",
   L "sausage", L "ribs"]

def dryGoodsToks : List (List Char) :=
  [L "canned", L "dry goods", L "pantry", L "shelf stable", L "flour",
   L "sugar", L "salt", L "spice", L "seasoning", L "oil", L "vinegar",
   L "beans", L "lentil", L "lentils", L "chickpea", L "oat", L "oats",
   L "oatmeal", L "cereal", L "broth", L "stock", L "sauce", L "condiment"]

def dairyToks : List (List Char) :=
  [L "milk", L "cheese", L "yogurt", L "butter", L "cream", L "half and half",
   L "cottage cheese", L "sour cream", L "kefir"]

def seafoodToks : List (List Char) :=
  [L "scallop", L "scallops", L "fish", L "shrimp", L "salmon", L "tuna"]

/-- `categorize_item`. -/
def categorize_item (name : List Char) : List Char :=
  let lower := lowerStr name
  let hasAny := fun (toks : List (List Char)) => toks.any (containsSub lower)
  if hasAny drinksToks then L "drinks"
  else if hasAny snacksToks then L "snacks"
  else if hasAny produceToks then L "produce"
  else if hasAny grainToks then L "grain"
  else if hasAny meatToks then L "meat"
  else if hasAny dryGoodsToks then L "dry goods"
  else if hasAny dairyToks then L "dairy"
  else if hasAny seafoodToks then L "seafood"
  else []

/-! ### Weight estimation

`WEIGHT_CONFIG` is external JSON configuration (`weight_config.json`,
absent → `{}`); `estimate_weight` is parameterised by it.  Python dicts
are modelled as insertion-ordered association lists. -/

structure WeightConfig where
  base : List (List Char × ℚ)
  item_specific : List (List Char × List (List Char × ℚ))
  food_weights : List (List Char × List (List Char))
  unit_overrides : List (List Char × ℚ)

/-- The `WEIGHT_CONFIG = {}` that `load_weight_config` produces when the
configuration file is missing or unreadable. -/
def emptyWeightConfig : WeightConfig := ⟨[], [], [], []⟩

/-- The `item_specific` loop of `estimate_weight`: the first keyword
contained in the name whose per-unit table has this exact unit returns
immediately; `some r` signals that early `return r`. -/
def itemSpecificScan (qty : ℚ) (unit_norm name_norm : List Char) :
    List (List Char × List (List Char × ℚ)) → Option (Option ℚ)
  | [] => none
  | (kw, unit_weights) :: rest =>
    if containsSub name_norm kw then
      match lookupL unit_weights unit_norm with
      | some w =>
        let estimate := pyRound2 (w * qty)
        some (if estimate ≥ 0 then some estimate else none)
      | none => itemSpecificScan qty unit_norm name_norm rest
    else itemSpecificScan qty unit_norm name_norm rest

/-- The `food_weights` category adjustment of `estimate_weight`
(the `if any(tok in name_norm ...)` chain). -/
def foodAdjust (cfg : WeightConfig) (per_unit : ℚ) (name_norm : List Char) : ℚ :=
  let food := fun k => (lookupL cfg.food_weights (L k)).getD []
  let baseD := fun k (d : ℚ) => (lookupL cfg.base (L k)).getD d
  let anyTok := fun (toks : List (List Char)) => toks.any (containsSub name_norm)
  if anyTok (food "produce_heavy") then baseD "produce_heavy" per_unit
  else if anyTok (food "produce_light") then baseD "produce_light" per_unit
  else if anyTok (food "meat") then baseD "meat" per_unit
  else if anyTok (food "dairy") then baseD "dairy" per_unit
  else if anyTok (food "seafood") then baseD "meat" per_unit
  else per_unit

/-- The unit-override / built-in floor ladder of `estimate_weight`
(`unit_overrides` exact key, the dead multi-word branch, then the
substring-keyed fallback heuristics). -/
def unitFloor (cfg : WeightConfig) (per_unit : ℚ) (unit_norm name_norm : List Char) : ℚ :=
  match lookupL cfg.unit_overrides unit_norm with
  | some v => max per_unit v
  | none =>
    if containsSub unit_norm (L " ") then
      -- `elif " " in unit_norm:` — the nested
      -- `if unit_overrides.get(unit_norm):` can no longer be truthy
      -- here (the exact-key branch above failed), so `per_unit` is
      -- unchanged.
      per_unit
    else if containsSub unit_norm (L "bag") then max per_unit 8
    else if containsSub unit_norm (L "bin") || containsSub unit_norm (L "tote")
        || containsSub unit_norm (L "crate") then max per_unit 25
    else if containsSub unit_norm (L "box") || containsSub unit_norm (L "case")
        || containsSub unit_norm (L "cs") || containsSub unit_norm (L "pkg")
        || containsSub unit_norm (L "package") then max per_unit 15
    else if containsSub unit_norm (L "flat") then max per_unit 12
    else if containsSub unit_norm (L "gallon") || containsSub unit_norm (L "gal") then
      max per_unit 8
    else if unit_norm = L "lb" || unit_norm = L "pound" || unit_norm = L "pounds" then
      (1 : ℚ)
    else if containsSub unit_norm (L "dozen") || unit_norm = L "dz" then max per_unit 4
    else if containsSub unit_norm (L "loaf") then max per_unit (1 / 2)
    else if containsSub unit_norm (L "bottle") || containsSub unit_norm (L "can")
        || containsSub unit_norm (L "jar") then max per_unit 2
    else if containsSub unit_norm (L "tray") || containsSub unit_norm (L "clamshell") then
      max per_unit 3
    else if containsSub unit_norm (L "bunch") then max per_unit 5
    else if containsSub unit_norm (L "each") then max per_unit 2
    else if containsSub name_norm (L "bread") || containsSub name_norm (L "dessert") then
      max per_unit (5 / 2)
    else per_unit

/-- `estimate_weight`. -/
def estimate_weight (cfg : WeightConfig) (qty? : Option ℚ)
    (unit? : Option (List Char)) (name : List Char) : Option ℚ :=
  match qty? with
  | none => none
  | some qty =>
    if qty ≤ 0 then none
    else if lowerStr (unit?.getD []) = L "lb" ∨ lowerStr (unit?.getD []) = L "lbs"
        ∨ lowerStr (unit?.getD []) = L "pound" ∨ lowerStr (unit?.getD []) = L "pounds" then
      some (pyRound2 qty)
    else
      match itemSpecificScan qty (lowerStr (unit?.getD [])) (lowerStr name) cfg.item_specific with
      | some r => r
      | none =>
        if pyRound2 (unitFloor cfg
              (foodAdjust cfg ((lookupL cfg.base (L "default")).getD 5) (lowerStr name))
              (lowerStr (unit?.getD [])) (lowerStr name) * qty) ≥ 0 then
          some (pyRound2 (unitFloor cfg
            (foodAdjust cfg ((lookupL cfg.base (L "default")).getD 5) (lowerStr name))
            (lowerStr (unit?.getD [])) (lowerStr name) * qty))
        else none

/-! ### `ITEM_PATTERN` and `parse_items` -/

/-- `s?` under IGNORECASE. -/
def optS : RE := opt (chrCI 's')

/-- Quantity: `\d+(?:\.\d+)?`. -/
def qtyRE : RE :=
  .seq (plus (.pred isDigitC)) (opt (.seq (chr '.') (plus (.pred isDigitC))))

/-- The unit alternation of `ITEM_PATTERN`, alternatives in source
order. -/
def unitAltsRE : RE :=
  altAll
    [strCI "cs", .seq (strCI "case") optS, .seq (strCI "boxe") optS, strCI "box",
     .seq (strCI "bin") optS, .seq (strCI "bag") optS,
     seqAll [strCI "shopping", wsPlus, strCI "bag", optS],
     .seq (strCI "tote") optS, .seq (strCI "crate") optS, .seq (strCI "flat") optS,
     .seq (strCI "pkg") optS, .seq (strCI "package") optS, .seq (strCI "pallet") optS,
     strCI "pallet",
     .seq (strCI "lb") optS, .seq (strCI "pound") optS,
     .seq (strCI "gal") optS, .seq (strCI "gallon") optS, strCI "gal",
     strCI "dozen", strCI "dz",
     seqAll [strCI "bottl", opt (chrCI 'e'), optS],
     .seq (strCI "can") optS, .seq (strCI "loave") optS, strCI "loaf",
     .seq (strCI "bunch") (opt (strCI "es")),
     .seq (strCI "tray") optS, .seq (strCI "jar") optS, .seq (strCI "clamshell") optS,
     strCI "pkg", strCI "bag", strCI "crate", strCI "flat", strCI "bin",
     strCI "tote", strCI "box"]

/-- `ITEM_PATTERN` (VERBOSE, IGNORECASE); groups: 1 = qty, 2 = unit,
3 = name. -/
def itemPattern : RE :=
  seqAll
    [wsStar,
     star (cls (L "-*•[")), wsStar,
     opt (chr '~'), wsStar,
     .group 1 qtyRE,
     wsStar,
     opt (.seq (altAll [strCI "small", strCI "sm", strCI "large", strCI "lrg", strCI "big"]) wsPlus),
     opt (.group 2 unitAltsRE),
     wsStar,
     opt (.seq (strCI "of") wsPlus),
     .group 3 (.seq (.pred isAlphaC) (star (ncls (L ",;|\n")))),
     .look (altAll
       [.lineEnd, cls (L ",;|"),
        seqAll [wsPlus, .alt (strCI "and") (chr '&'), wsPlus, opt (chr '~'), .pred isDigitC],
        chr '\n'])]

/-- `re.sub` with a `^`-anchored pattern: at most one replacement, at
the start. -/
def subAnchored (re : RE) (repl : List Char → Caps → List Char) (s : List Char) : List Char :=
  match reMatch re s with
  | some (caps, j) => repl s caps ++ s.drop j
  | none => s

/-- `\(([^)]{1,80})\)\s*$`. -/
def parenTrailRE : RE :=
  seqAll [chr '(', .group 1 (.bound 1 (some 80) false (ncls (L ")"))),
    chr ')', wsStar, .lineEnd]

/-- `\b(?:in|on|inside)\s+(?:the\s+)?(?:cooler|freezer|fridge|fridges?)\b`
(IGNORECASE). -/
def coolerRE : RE :=
  seqAll [.wordB, altAll [strCI "in", strCI "on", strCI "inside"], wsPlus,
    opt (.seq (strCI "the") wsPlus),
    altAll [strCI "cooler", strCI "freezer", strCI "fridge",
      .seq (strCI "fridge") (opt (chrCI 's'))],
    .wordB]

/-- `^(?P<item>.+?)\s+(?P<unit>boxes?|box|cases?|case|crates?|totes?|bins?|bags?)$`
(IGNORECASE); groups: 1 = item, 2 = unit. -/
def trailingUnitRE : RE :=
  seqAll [.group 1 (.bound 1 none true dotP), wsPlus,
    .group 2 (altAll
      [.seq (strCI "boxe") optS, strCI "box", .seq (strCI "case") optS, strCI "case",
       .seq (strCI "crate") optS, .seq (strCI "tote") optS,
       .seq (strCI "bin") optS, .seq (strCI "bag") optS]),
    .lineEnd]

/-- `^(?:big|large|lrg)?\s*bags?\b\s+(.*)$` (IGNORECASE). -/
def bagLeadRE : RE :=
  seqAll [opt (altAll [strCI "big", strCI "large", strCI "lrg"]), wsStar,
    strCI "bag", optS, .wordB, wsPlus, .group 1 (star dotP), .lineEnd]

/-- `^(?:big|large|lrg)\s+` (IGNORECASE). -/
def bigLeadRE : RE :=
  seqAll [altAll [strCI "big", strCI "large", strCI "lrg"], wsPlus]

/-- `\bbig\s+bags?\s+` (IGNORECASE). -/
def bigBagsRE : RE :=
  seqAll [.wordB, strCI "big", wsPlus, strCI "bag", optS, wsPlus]

/-- `\bbags?\b` (IGNORECASE). -/
def bagsWordRE : RE := seqAll [.wordB, strCI "bag", optS, .wordB]

/-- `^(?:big|large|small|lrg)\s+(split\s+peas?)` (IGNORECASE),
substituted by the captured group. -/
def splitPeaRE : RE :=
  seqAll [altAll [strCI "big", strCI "large", strCI "small", strCI "lrg"], wsPlus,
    .group 1 (seqAll [strCI "split", wsPlus, strCI "pea", opt (chrCI 's')])]

/-- `\s{2,}`. -/
def ws2RE : RE := .bound 2 none false (.pred isSpaceP)

/-- `\b(am|pm)\b` (case-sensitive; it is applied to a lower-cased
name). -/
def amPmRE : RE := seqAll [.wordB, .group 1 (.alt (str "am") (str "pm")), .wordB]

def boilerplateToks : List (List Char) :=
  [L "google", L "docs.google", L "guide", L "meeting", L "channel",
   L "thermometer", L "dumpster", L "door", L "code", L "recycling",
   L "compost", L "cardboard", L "loading", L "schedule"]

/-- The rejection filters and item construction at the tail of the
`parse_items` loop body (from the `alpha_len` check to the
`items.append(...)`), applied to the fully cleaned name, the parsed
quantity and the normalized unit. -/
def itemGuards (cfg : WeightConfig) (name : List Char) (qty : Option ℚ)
    (unit_norm : Option (List Char)) : Option ParsedItem :=
  -- the source's locals `subcategory = categorize_item(name)` and
  -- `name_lower = name.lower()` are inlined at their use sites
  if ((lowerStr name).filter (fun c => 'a' ≤ c && c ≤ 'z')).length < 3 then none
  else if containsSub name (L "<@") || containsSub (lowerStr name) (L "http") then none
  else if (match qty with | some q => decide (q > 500) | none => false) then none
  else if (match qty with | some q => decide (q > 150) && unit_norm.isNone | none => false) then none
  else if boilerplateToks.any (containsSub (lowerStr name)) then none
  else if unit_norm.isNone && (reSearch amPmRE (lowerStr name)).isSome then none
  else if containsSub name (L "!") then none
  else if unit_norm.isNone && categorize_item name = [] && (pySplitWs name).length ≤ 1
      && (match qty with | some q => decide (q ≤ 2) | none => true) then none
  else if unit_norm.isNone && categorize_item name = [] then none
  else
    some ⟨name, qty, unit_norm, estimate_weight cfg qty unit_norm name, categorize_item name⟩

/-- The pure name/unit cleanup region of the `parse_items` loop body
(the parenthetical and cooler strips through the typo-correction map):
given `unit_norm` and the name as first extracted, returns the final
`(unit_norm, name)` pair. -/
def cleanItemName (unit_norm0 : Option (List Char)) (name0 : List Char) :
    Option (List Char) × List Char :=
  let name := pyStrip (reSubLit parenTrailRE [] name0)
  let name := pyStrip (reSubLit coolerRE [] name)
  let p1 :=
    match unit_norm0 with
    | some u => (some u, name)
    | none =>
      match reMatch trailingUnitRE name with
      | some (tcaps, _) =>
        let unit_guess := lowerStr ((capGroup name tcaps 2).getD [])
        ((some ((lookupL ITEM_UNIT_MAP unit_guess).getD unit_guess) : Option (List Char)),
         pyStrip ((capGroup name tcaps 1).getD []))
      | none => (none, name)
  let unit_norm := p1.1
  let name := p1.2
  let lower_name := lowerStr name
  let p2 :=
    match unit_norm with
    | some u => (some u, name)
    | none =>
      match reMatch bagLeadRE name with
      | some (bcaps, _) =>
        ((some (L "bag") : Option (List Char)), pyStrip ((capGroup name bcaps 1).getD []))
      | none => (none, name)
  let unit_norm := p2.1
  let name := p2.2
  let name :=
    if (unit_norm = some (L "bag") || unit_norm = some (L "bags"))
        && (startsWithL lower_name (L "big") || startsWithL lower_name (L "large")
            || startsWithL lower_name (L "lrg")) then
      pyStrip (subAnchored bigLeadRE (fun _ _ => []) name)
    else name
  let name :=
    if startsWithL (lowerStr name) (L "big bags") then
      pyStrip (reSubLit bigBagsRE [] name)
    else name
  let name := pyStrip (reSubLit bagsWordRE [] name)
  let name := subAnchored splitPeaRE (fun s c => (capGroup s c 1).getD []) name
  let name := pyStrip (reSubLit ws2RE (L " ") name)
  let name := pyStrip (lowerStr name)
  let name :=
    if name = L "brocolli" then L "broccoli"
    else if name = L "brussel sprouts" then L "brussels sprouts"
    else name
  (unit_norm, name)

/-- The per-candidate body of the `parse_items` loop; `none` means the
candidate is rejected (`continue`). -/
def parse_item_segment (cfg : WeightConfig) (segment0 : List Char) : Option ParsedItem :=
  if segment0 = [] then none
  else
  let lower := lowerStr segment0
  if startsWithL lower (L "http") || startsWithL lower (L "<http")
      || startsWithL lower (L "https") || containsSub lower (L "google.com/maps") then none
  else if containsSub segment0 (L "<@") then none
  else
  -- re.sub(r"^[^0-9~]*", "", segment): drop the maximal prefix of
  -- characters that are neither digits nor '~'
  let segment := pyStrip (segment0.dropWhile (fun c => !(isDigitC c || c = '~')))
  if segment = [] then none
  else
  match reMatch itemPattern segment with
  | none => none
  | some (caps, _) =>
    let qty_raw := (capGroup segment caps 1).getD []
    let qty : Option ℚ := parseDecimal qty_raw
    let unit_raw := (capGroup segment caps 2).getD []
    let ukey := pyStrip (lowerStr unit_raw)
    let unit_norm : Option (List Char) :=
      match lookupL ITEM_UNIT_MAP ukey with
      | some u => some u
      | none => if ukey = [] then none else some ukey
    let name := pyStrip (pyStripChars (L " .;-") ((capGroup segment caps 3).getD []))
    if name = [] then none
    else
      itemGuards cfg (cleanItemName unit_norm name).2 qty (cleanItemName unit_norm name).1

/-- `parse_items`. -/
def parse_items (cfg : WeightConfig) (text : List Char) : List ParsedItem :=
  let normalized := numberize_words (normalize_text text)
  (split_item_segments normalized).filterMap (parse_item_segment cfg)

/-! ### Section segmentation -/

structure Section where
  location : List Char
  items : List ParsedItem
deriving DecidableEq, Repr

/-- `[A-Za-z0-9 /&'’.-]` (the heading / lead-in name class). -/
def locNameChar (c : Char) : Bool :=
  isAlphaC c || isDigitC c || c = ' ' || c = '/' || c = '&' || c = '\'' ||
  c = '’' || c = '.' || c = '-'

/-- `heading_re = re.compile(r"^([A-Za-z0-9 /&'’.-]+):\s*$")`. -/
def headingRE : RE :=
  seqAll [.group 1 (plus (.pred locNameChar)), chr ':', wsStar, .lineEnd]

/-- The line scan of `parse_sections`; `cur = []` models a falsy
`current_loc` (`None` or the empty heading). -/
def sectionsScan : List (List Char) → List Char → List (List Char) →
    List (List Char × List Char)
  | [], cur, buf =>
    if cur ≠ [] && buf ≠ [] then [(cur, joinWith (L "\n") buf)] else []
  | line :: rest, cur, buf =>
    match reMatch headingRE line with
    | some (caps, _) =>
      let flushed :=
        if cur ≠ [] && buf ≠ [] then [(cur, joinWith (L "\n") buf)] else []
      flushed ++ sectionsScan rest (pyStrip ((capGroup line caps 1).getD [])) []
    | none =>
      if cur ≠ [] then sectionsScan rest cur (buf ++ [line])
      else sectionsScan rest cur buf

/-- `parse_sections`. -/
def parse_sections (cfg : WeightConfig) (text : List Char) : List Section :=
  let lines := pySplit (L "\n") (normalize_text text)
  (sectionsScan lines [] []).filterMap fun lc =>
    let chunk_items := parse_items cfg lc.2
    if chunk_items = [] then none
    else some ⟨clean_location lc.1, chunk_items⟩

/-! ### Message grouping

`dt` is modelled as an optional instant in epoch seconds; the idle
window `timedelta(minutes=w)` becomes `60 * w` seconds.  `datetime.min`
(the sort key for unparseable timestamps) becomes the corresponding
constant. -/

structure MessageRow where
  ts : List Char
  dt : Option Int
  user : List Char
  text : List Char
  msg_type : List Char
  subtype : List Char
deriving DecidableEq, Repr

/-- `datetime.min.replace(tzinfo=timezone.utc)` in epoch seconds
(0001-01-01T00:00:00Z). -/
def dtMin : Int := -62135596800

def dtKey (r : MessageRow) : Int := r.dt.getD dtMin

/-- Stable insertion of one row into a key-sorted list (an element goes
before the first strictly greater key, hence after earlier equal
keys). -/
def insSorted (x : MessageRow) : List MessageRow → List MessageRow
  | [] => [x]
  | y :: ys => if dtKey x ≤ dtKey y then x :: y :: ys else y :: insSorted x ys

/-- `usable.sort(key=lambda r: (r.dt or datetime.min...))` — Python's
sort is stable; a stable insertion sort is extensionally the same. -/
def sortByDt (l : List MessageRow) : List MessageRow := l.foldr insSorted []

/-- One grouped run of messages (the `current` dict of
`group_messages`).  `rows` additionally records the underlying events
(the source keeps only their texts/timestamps); it is carried so that
the grouping invariants can be stated. -/
structure Group where
  user : List Char
  start_ts : List Char
  end_ts : List Char
  start_dt : Option Int
  last_dt : Option Int
  messages : List (List Char)
  timestamps : List (List Char)
  rows : List MessageRow
deriving DecidableEq, Repr

def newGroup (row : MessageRow) : Group :=
  ⟨row.user, row.ts, row.ts, row.dt, row.dt, [row.text], [row.ts], [row]⟩

/-- The append condition of the scan:
`row.user == current["user"] and row.dt and current["last_dt"] and
row.dt - current["last_dt"] <= delta`. -/
def joinsGroup (delta : Int) (g : Group) (row : MessageRow) : Bool :=
  row.user = g.user &&
    (match row.dt, g.last_dt with
     | some a, some b => decide (a - b ≤ delta)
     | _, _ => false)

def appendRow (g : Group) (row : MessageRow) : Group :=
  { g with
    messages := g.messages ++ [row.text],
    timestamps := g.timestamps ++ [row.ts],
    last_dt := row.dt,
    rows := g.rows ++ [row] }

def scanGroups (delta : Int) : List MessageRow → Option Group → List Group → List Group
  | [], none, acc => acc
  | [], some g, acc => acc ++ [g]
  | row :: rest, none, acc => scanGroups delta rest (some (newGroup row)) acc
  | row :: rest, some g, acc =>
    if joinsGroup delta g row then
      scanGroups delta rest (some (appendRow g row)) acc
    else
      scanGroups delta rest (some (newGroup row)) (acc ++ [g])

/-- The `usable` filter of `group_messages`. -/
def usableRow (r : MessageRow) : Bool :=
  r.msg_type = L "message" && r.subtype ≠ L "channel_join" && pyStrip r.text ≠ []

/-- `group_messages`. -/
def group_messages (rows : List MessageRow) (window_minutes : Int) : List Group :=
  let usable := rows.filter usableRow
  let usable := sortByDt usable
  scanGroups (60 * window_minutes) usable none []

/-! ### Record assembly (the per-group body of `main`) -/

structure Record where
  id : Nat
  user : List Char
  start_ts : List Char
  end_ts : List Char
  direction : List Char
  rescue_location : List Char
  drop_off_location : List Char
  items : List ParsedItem
  sections : List Section
  raw_messages : List (List Char)
deriving DecidableEq, Repr

def flattenItems (sections : List Section) : List ParsedItem :=
  sections.flatMap (·.items)

/-- The body of the `for idx, group in enumerate(groups)` loop of
`main` (record ids are `idx + 1`). -/
def assembleRecord (cfg : WeightConfig) (idx : Nat) (group : Group) : Record :=
  let combined_text := joinWith (L "\n") group.messages
  let rescue_loc := extract_rescue_location combined_text
  let drop_loc := extract_dropoff_location combined_text
  let direction := detect_direction combined_text rescue_loc drop_loc
  let sections := parse_sections cfg combined_text
  -- (items, sections, rescue_loc) after the `if sections: ... else ...`
  -- block of the loop body; `headD` reads `sections[0]` (the branch
  -- guarantees non-emptiness).
  let isr : List ParsedItem × List Section × List Char :=
    if sections = [] then
      (parse_items cfg combined_text,
       (if rescue_loc ≠ [] ∨ drop_loc ≠ [] then
          [⟨(if rescue_loc ≠ [] then rescue_loc else drop_loc),
            parse_items cfg combined_text⟩]
        else sections),
       rescue_loc)
    else
      (flattenItems sections,
       (if drop_loc ≠ [] ∧ drop_loc ∉ sections.map Section.location then
          sections ++ [⟨drop_loc, flattenItems sections⟩]
        else sections),
       (if rescue_loc = [] ∧ (sections.headD ⟨[], []⟩).location ≠ [] then
          (sections.headD ⟨[], []⟩).location
        else rescue_loc))
  { id := idx + 1,
    user := group.user,
    start_ts := group.start_ts,
    end_ts := (match group.timestamps.getLast? with
               | some t => t
               | none => group.start_ts),
    direction := direction,
    rescue_location := isr.2.2,
    drop_off_location := drop_loc,
    items := isr.1,
    sections := isr.2.1,
    raw_messages := group.messages }

end Extract

namespace Api
/-! ## `training/peft/slack_api.py` — location canonicalization -/

/-- `_normalize_loc`. -/
def normalizeLoc (value : List Char) : List Char :=
  let clean := reSubLit
    (plus (.pred fun c => !(('a' ≤ c && c ≤ 'z') || isDigitC c || c = ' ')))
    (L " ") (lowerStr value)
  let clean := pyStrip clean
  reSubLit wsPlus (L " ") clean

/-- `DEFAULT_LOCATION_ALIASES`, in source (insertion) order; note the
keys are NOT passed through `_normalize_loc` on this code path. -/
def DEFAULT_LOCATION_ALIASES : List (List Char × List Char) :=
  [(L "aldi wp", L "Aldi Wicker Park"),
   (L "aldi wicker park", L "Aldi Wicker Park"),
   (L "wicker park aldi", L "Aldi Wicker Park"),
   (L "aldi n milwaukee", L "Aldi Wicker Park"),
   (L "aldi n milwaukee ave", L "Aldi Wicker Park"),
   (L "aldis wp", L "Aldi Wicker Park"),
   (L "aldis wicker park", L "Aldi Wicker Park"),
   (L "aldi hodgkins", L "Aldi Hodgkins"),
   (L "aldi lyons", L "Aldi Lyons"),
   (L "aldi cicero", L "Aldi Cicero"),
   (L "aldi englewood", L "Aldi Englewood"),
   (L "uc", L "UC"),
   (L "love fridge", L "Love Fridge"),
   (L "love fridges", L "Love Fridge"),
   (L "na4j", L "NA4J"),
   (L "lsrsn", L "LSRSN"),
   (L "ls rsn", L "LSRSN"),
   (L "marianos", L "Mariano's"),
   (L "mariano's", L "Mariano's"),
   (L "sl mariano's", L "Mariano's South Loop"),
   (L "marianos sl", L "Mariano's South Loop"),
   (L "mariano's sl", L "Mariano's South Loop"),
   (L "marianos south loop", L "Mariano's South Loop"),
   (L "south loop marianos", L "Mariano's South Loop"),
   (L "south loop mariano's", L "Mariano's South Loop")]

/-- `LOCATION_ALIASES = load_alias_map()`: the aliases file
`data/location_aliases.json` is not part of the repository sources, so
`load_alias_map` takes its `FileNotFoundError` branch and returns a copy
of `DEFAULT_LOCATION_ALIASES`. -/
def LOCATION_ALIASES : List (List Char × List Char) := DEFAULT_LOCATION_ALIASES

/-- The four lead-in patterns of `canonical_loc` (IGNORECASE,
`re.match`-anchored, `$`-terminated). -/
def leadPatterns : List RE :=
  [ -- ^[A-Za-z0-9 /&'’.-]+\s+picked\s+up\s+(?:this\s+morning|earlier\s+today|today)?\s+at\s+(.+)$
    seqAll [plus (.pred Extract.locNameChar), wsPlus, strCI "picked", wsPlus,
      strCI "up", wsPlus,
      opt (altAll [seqAll [strCI "this", wsPlus, strCI "morning"],
                   seqAll [strCI "earlier", wsPlus, strCI "today"],
                   strCI "today"]),
      wsPlus, strCI "at", wsPlus, .group 1 (plus dotP), .lineEnd],
    -- ^[A-Za-z0-9 /&'’.-]+\s+picked\s+up\s+at\s+(.+)$
    seqAll [plus (.pred Extract.locNameChar), wsPlus, strCI "picked", wsPlus,
      strCI "up", wsPlus, strCI "at", wsPlus, .group 1 (plus dotP), .lineEnd],
    -- ^[A-Za-z0-9 /&'’.-]+\s+picked\s+up\s+from\s+(.+)$
    seqAll [plus (.pred Extract.locNameChar), wsPlus, strCI "picked", wsPlus,
      strCI "up", wsPlus, strCI "from", wsPlus, .group 1 (plus dotP), .lineEnd],
    -- ^[A-Za-z0-9 /&'’.-]+\s+took\s+(?:directly\s+)?from\s+(.+)$
    seqAll [plus (.pred Extract.locNameChar), wsPlus, strCI "took", wsPlus,
      opt (.seq (strCI "directly") wsPlus), strCI "from", wsPlus,
      .group 1 (plus dotP), .lineEnd] ]

/-- The lead-in loop (first matching pattern wins,
`cleaned = m.group(1).strip(" :-")`). -/
def stripLead : List RE → List Char → List Char
  | [], cleaned => cleaned
  | p :: ps, cleaned =>
    match reMatch p cleaned with
    | some (caps, _) => pyStripChars (L " :-") ((capGroup cleaned caps 1).getD [])
    | none => stripLead ps cleaned

/-- `re.sub(r"^\s*from\s+", "", cleaned, re.IGNORECASE)` pattern. -/
def fromLeadRE : RE := seqAll [wsStar, strCI "from", wsPlus]

/-- `re.sub(r"\s*[:;,-]+\s*$", "", cleaned)` pattern. -/
def trailPunct2RE : RE :=
  seqAll [wsStar, plus (cls (L ":;,-")), wsStar, .lineEnd]

/-- `re.sub(r"\btook\b\s*$", "", cleaned, re.IGNORECASE)` pattern. -/
def tookTrailRE : RE :=
  seqAll [.wordB, strCI "took", .wordB, wsStar, .lineEnd]

/-- The first-substring-match fallback of the alias lookup. -/
def aliasSubstrScan : List (List Char × List Char) → List Char → List Char
  | [], _ => []
  | akc :: rest, key =>
    if akc.1 ≠ [] && key ≠ [] && containsSub key akc.1 then akc.2
    else aliasSubstrScan rest key

/-- The later cleaning steps of `canonical_loc` (everything between the
Mariano's branch and the computation of `key`). -/
def cleanLocTail (cleaned0 : List Char) : List Char :=
  let cleaned := Extract.subAnchored fromLeadRE (fun _ _ => []) cleaned0
  let cleaned := splitFirst (L "\n") cleaned
  let cleaned := splitFirst (L "(") cleaned
  let cleaned := reSubLit trailPunct2RE [] cleaned
  pyStrip (reSubLit tookTrailRE [] cleaned)

/-- The cleaning stage of `canonical_loc` (everything between
`cleaned = str(value or "").strip()` and the computation of `key`).
`none` models the `ValueError` raised by
`before, after = cleaned.rsplit(" at ", 1)`: the guard tests the
lower-cased copy, so when `" at "` occurs only there (e.g. the text has
`" AT "`), `rsplit` on the original yields a single piece and the tuple
unpacking fails. -/
def cleanLoc (value : List Char) : Option (List Char) :=
  let cleaned := pyStrip value
  -- Strip common lead-ins like "SWC picked up this morning at X"
  let cleaned := stripLead leadPatterns cleaned
  -- If a trailing "at <location>" remains and it contains Mariano's,
  -- keep just the location.
  let lower_clean := lowerStr cleaned
  if containsSub lower_clean (L " mariano") && containsSub lower_clean (L " at ") then
    match rsplitOnce (L " at ") cleaned with
    | some ba =>
      some (cleanLocTail (if pyStrip ba.2 ≠ [] then pyStripChars (L " :-") ba.2 else cleaned))
    | none => none
  else some (cleanLocTail cleaned)

/-- `canonical_loc` (the cleaning stage, then `key = _normalize_loc(cleaned)`
and the exact / substring lookup); `none` models the `ValueError` escaping
from the Mariano's `rsplit` branch. -/
def canonical_loc (value : List Char) : Option (List Char) :=
  if value = [] then some []
  else
    match cleanLoc value with
    | none => none
    | some cleaned =>
      match lookupL LOCATION_ALIASES (normalizeLoc cleaned) with
      | some canon => some canon
      | none => some (aliasSubstrScan LOCATION_ALIASES (normalizeLoc cleaned))

end Api

/-! ## Derived notions used by the verification -/

/-- The distinct canonical names of the run's alias table, plus the
empty string: every successful `canonical_loc` result lies in this
list. -/
def allCanon : List (List Char) :=
  [[], L "Aldi Wicker Park", L "Aldi Hodgkins", L "Aldi Lyons", L "Aldi Cicero",
   L "Aldi Englewood", L "UC", L "Love Fridge", L "NA4J", L "LSRSN",
   L "Mariano's", L "Mariano's South Loop"]

/-- The ordering by which `group_messages` sorts usable rows. -/
abbrev dtLE (a b : Extract.MessageRow) : Prop := Extract.dtKey a ≤ Extract.dtKey b

/-- The capture-group indices occurring syntactically in a pattern. -/
def groupIdxs : RE → List Nat
  | .eps | .pred _ | .wordB | .lineEnd => []
  | .seq a b | .alt a b => groupIdxs a ++ groupIdxs b
  | .bound _ _ _ a | .look a => groupIdxs a
  | .group n a => n :: groupIdxs a

/-- The sub-expression of `itemPattern` after the quantity group: the
optional size word, optional unit group 2, optional "of", the name
group 3, and the trailing lookahead. -/
def itemPatternTail : RE :=
  seqAll
    [wsStar,
     opt (.seq (altAll [strCI "small", strCI "sm", strCI "large", strCI "lrg", strCI "big"]) wsPlus),
     opt (.group 2 Extract.unitAltsRE),
     wsStar,
     opt (.seq (strCI "of") wsPlus),
     .group 3 (.seq (.pred isAlphaC) (star (ncls (L ",;|\n")))),
     .look (altAll
       [.lineEnd, cls (L ",;|"),
        seqAll [wsPlus, .alt (strCI "and") (chr '&'), wsPlus, opt (chr '~'), .pred isDigitC],
        chr '\n'])]


/-- The invariant every group produced by the scan of `group_messages`
maintains: the stored message/timestamp lists mirror the underlying
rows, the group is non-empty and single-author, `last_dt` is the last
row's `dt`, and a row without a parseable timestamp can only be the
sole row of its group. -/
def groupInv (g : Extract.Group) : Prop :=
  g.messages = g.rows.map Extract.MessageRow.text ∧
  g.timestamps = g.rows.map Extract.MessageRow.ts ∧
  g.rows ≠ [] ∧
  (∀ r ∈ g.rows, r.user = g.user) ∧
  (∃ lastR, g.rows.getLast? = some lastR ∧ g.last_dt = lastR.dt) ∧
  (∀ r ∈ g.rows, r.dt = none → g.rows = [r])

/-! ## Helper lemmas -/

theorem lookupL_mem {α : Type} {m : List (List Char × α)} {k : List Char} {v : α}
    (h : lookupL m k = some v) : v ∈ m.map Prod.snd := by
  induction m with
  | nil => exact Option.noConfusion h
  | cons hd tl ih =>
    unfold lookupL at h
    split_ifs at h with hk
    · rw [List.map_cons, ← Option.some.inj h]
      exact List.mem_cons_self _ _
    · rw [List.map_cons]
      exact List.mem_cons_of_mem _ (ih h)

theorem aliasSubstrScan_mem {m : List (List Char × List Char)} {k v : List Char}
    (h : Api.aliasSubstrScan m k = v) : v = [] ∨ v ∈ m.map Prod.snd := by
  induction m with
  | nil =>
    left
    unfold Api.aliasSubstrScan at h
    exact h.symm
  | cons hd tl ih =>
    unfold Api.aliasSubstrScan at h
    split_ifs at h with hc
    · right; simp [← h]
    · rcases ih h with h' | h'
      · left; exact h'
      · right; simp [h']

theorem aliasSubstrScan_eq_nil {m : List (List Char × List Char)} {k : List Char}
    (h : ∀ p ∈ m, ¬ (p.1 ≠ [] ∧ k ≠ [] ∧ containsSub k p.1 = true)) :
    Api.aliasSubstrScan m k = [] := by
  induction m with
  | nil => rfl
  | cons hd tl ih =>
    unfold Api.aliasSubstrScan
    split_ifs with hc
    · exfalso
      apply h hd (by simp)
      simp only [Bool.and_eq_true, ne_eq, decide_not] at hc
      refine ⟨?_, ?_, hc.2⟩
      · simpa using hc.1.1
      · simpa using hc.1.2
    · exact ih fun p hp => h p (by simp [hp])

/-! ## Claim C1 — canonicalization idempotence -/

set_option maxRecDepth 20000 in
theorem canonical_loc_range {s v : List Char} (h : Api.canonical_loc s = some v) :
    v ∈ allCanon := by
  unfold Api.canonical_loc at h
  split_ifs at h with hempty
  · cases Option.some.inj h
    simp [allCanon]
  · cases hcl : Api.cleanLoc s with
    | none => rw [hcl] at h; exact Option.noConfusion h
    | some cleaned =>
      rw [hcl] at h
      dsimp only at h
      have hsub : Api.LOCATION_ALIASES.map Prod.snd ⊆ allCanon := by decide
      cases hlk : lookupL Api.LOCATION_ALIASES (Api.normalizeLoc cleaned) with
      | some canon =>
        rw [hlk] at h
        cases Option.some.inj h
        exact hsub (lookupL_mem hlk)
      | none =>
        rw [hlk] at h
        cases Option.some.inj h
        rcases aliasSubstrScan_mem (rfl :
            Api.aliasSubstrScan Api.LOCATION_ALIASES
              (Api.normalizeLoc cleaned) = _) with h' | h'
        · rw [h']; simp [allCanon]
        · exact hsub h'

set_option maxRecDepth 100000 in
set_option maxHeartbeats 4000000 in
theorem canonical_fixed :
    ∀ v ∈ allCanon, ∃ w, Api.canonical_loc v = some w ∧
      Api.canonical_loc w = some w := by
  decide

/-- C1: the claim as stated — canonicalizing a second time never changes
the result — is FALSE on the code with the run's alias table
(`DEFAULT_LOCATION_ALIASES`, the table loaded when
`data/location_aliases.json` is absent): `canonical_loc "marianos"`
returns `"Mariano's"`, but re-canonicalizing `"Mariano's"` yields `""`
(its comparison key `"mariano s"` matches no alias key). -/
theorem c1_counterexample :
    (Api.canonical_loc (L "marianos")).bind Api.canonical_loc ≠
      Api.canonical_loc (L "marianos") := by
  decide

/-- C1 (amended): whenever `canonical_loc` returns a value `r`, applying
it to `r` succeeds with some `w` that is a fixed point, so from the
second application on the result never changes again; re-canonicalizing
any returned name other than `"Mariano's"` and `"Mariano's South Loop"`
(whose keys are missing from the default table) returns that same name;
and `canonical_loc` can also fail to return at all — on
`"x Mariano AT zzz"` the Mariano's branch raises `ValueError`, since
`" at "` occurs only in the lower-cased copy used by the guard. -/
theorem c1_amended :
    (∀ s r, Api.canonical_loc s = some r →
      ∃ w, Api.canonical_loc r = some w ∧ Api.canonical_loc w = some w) ∧
    (∀ v ∈ allCanon, v ≠ L "Mariano's" → v ≠ L "Mariano's South Loop" →
        Api.canonical_loc v = some v) ∧
    Api.canonical_loc (L "x Mariano AT zzz") = none := by
  refine ⟨?_, ?_, ?_⟩
  · intro s r h
    exact canonical_fixed r (canonical_loc_range h)
  · decide
  · decide

/-- C1 witness: the amended theorem applied at the concrete input
`"aldi wp"`, whose canonical form is `"Aldi Wicker Park"`. -/
theorem c1_witness :
    Api.canonical_loc (L "aldi wp") = some (L "Aldi Wicker Park") ∧
    (∃ w, Api.canonical_loc (L "Aldi Wicker Park") = some w ∧
      Api.canonical_loc w = some w) ∧
    Api.canonical_loc (L "Aldi Wicker Park") = some (L "Aldi Wicker Park") :=
  ⟨by decide,
   c1_amended.1 (L "aldi wp") (L "Aldi Wicker Park") (by decide),
   c1_amended.2.1 (L "Aldi Wicker Park") (by decide) (by decide) (by decide)⟩

/-! ## Claim C2 — behaviour when no alias matches -/

/-- C2: FALSE on the code.  For `"Random Warehouse Qz"` cleaning
completes and produces a non-empty string whose computed key matches no
alias key exactly and contains no alias key as a substring, yet
`canonical_loc` returns the empty string, not the cleaned string; and on
`"x Mariano AT zzz"` the fallthrough is not even reached — the Mariano's
branch raises `ValueError` instead of returning anything. -/
theorem c2_counterexample :
    Api.cleanLoc (L "Random Warehouse Qz") = some (L "Random Warehouse Qz") ∧
    lookupL Api.LOCATION_ALIASES
        (Api.normalizeLoc (L "Random Warehouse Qz")) = none ∧
    (∀ p ∈ Api.LOCATION_ALIASES,
      ¬ containsSub (Api.normalizeLoc (L "Random Warehouse Qz")) p.1 = true) ∧
    Api.canonical_loc (L "Random Warehouse Qz") ≠ some (L "Random Warehouse Qz") ∧
    Api.canonical_loc (L "Random Warehouse Qz") = some [] ∧
    Api.cleanLoc (L "x Mariano AT zzz") = none ∧
    Api.canonical_loc (L "x Mariano AT zzz") = none := by
  decide

/-- C2 (amended): whenever the cleaning stage completes (the Mariano's
`rsplit` `ValueError` path is not hit) and the computed key is neither an
exact alias key nor has any alias key as a substring, `canonical_loc`
returns the EMPTY string — the cleaned-but-uncanonicalized string is
discarded, whether or not cleaning produced anything. -/
theorem c2_amended (s cleaned : List Char)
    (hcl : Api.cleanLoc s = some cleaned)
    (hex : lookupL Api.LOCATION_ALIASES (Api.normalizeLoc cleaned) = none)
    (hsub : ∀ p ∈ Api.LOCATION_ALIASES,
      ¬ (p.1 ≠ [] ∧ Api.normalizeLoc cleaned ≠ [] ∧
         containsSub (Api.normalizeLoc cleaned) p.1 = true)) :
    Api.canonical_loc s = some [] := by
  unfold Api.canonical_loc
  split_ifs with h
  · rfl
  · rw [hcl]
    dsimp only
    rw [hex]
    dsimp only
    rw [aliasSubstrScan_eq_nil hsub]

/-- C2 witness: the amended theorem applied at `"Random Warehouse Qz"`. -/
theorem c2_witness : Api.canonical_loc (L "Random Warehouse Qz") = some [] :=
  c2_amended (L "Random Warehouse Qz") (L "Random Warehouse Qz")
    (by decide) (by decide) (by decide)

/-! ## Claim C5 — weight estimator nullability and non-negativity -/

theorem pyRound2_nonneg {x : ℚ} (hx : 0 ≤ x) : 0 ≤ pyRound2 x := by
  unfold pyRound2 roundHalfEven
  have hf : (0 : ℤ) ≤ ⌊(100 : ℚ) * x⌋ := Int.floor_nonneg.mpr (by positivity)
  have hf1 : (0 : ℤ) ≤ ⌊(100 : ℚ) * x⌋ + 1 := by omega
  split_ifs
  · exact div_nonneg (by exact_mod_cast hf) (by norm_num)
  · exact div_nonneg (by exact_mod_cast hf1) (by norm_num)
  · exact div_nonneg (by exact_mod_cast hf) (by norm_num)
  · exact div_nonneg (by exact_mod_cast hf1) (by norm_num)

theorem itemSpecificScan_nonneg {q : ℚ} {u n : List Char} {w : ℚ} :
    ∀ {l}, Extract.itemSpecificScan q u n l = some (some w) → 0 ≤ w := by
  intro l
  induction l with
  | nil => intro h; exact Option.noConfusion h
  | cons hd tl ih =>
    intro h
    unfold Extract.itemSpecificScan at h
    split_ifs at h with hc
    · cases hlk : lookupL hd.2 u with
      | some wt =>
        rw [hlk] at h
        have h' := Option.some.inj h
        by_cases hge : pyRound2 (wt * q) ≥ 0
        · rw [if_pos hge] at h'
          rw [← Option.some.inj h']
          exact hge
        · rw [if_neg hge] at h'
          exact Option.noConfusion h'
      | none =>
        rw [hlk] at h
        exact ih h
    · exact ih h

/-- C5: `estimate_weight` returns `None` whenever the quantity is
`None` or ≤ 0, and every non-`None` result is ≥ 0 — for every weight
configuration (the rate tables are external JSON). -/
theorem c5_estimate_weight (cfg : Extract.WeightConfig) (qty? : Option ℚ)
    (unit? : Option (List Char)) (name : List Char) :
    ((qty? = none ∨ ∃ q, qty? = some q ∧ q ≤ 0) →
      Extract.estimate_weight cfg qty? unit? name = none) ∧
    (∀ w, Extract.estimate_weight cfg qty? unit? name = some w → 0 ≤ w) := by
  constructor
  · rintro (h | ⟨q, rfl, hq⟩)
    · rw [h]; rfl
    · unfold Extract.estimate_weight
      simp [if_pos hq]
  · intro w h
    unfold Extract.estimate_weight at h
    cases qty? with
    | none => exact Option.noConfusion h
    | some q =>
      dsimp only at h
      by_cases hq : q ≤ 0
      · rw [if_pos hq] at h
        exact Option.noConfusion h
      · rw [if_neg hq] at h
        by_cases hlb : lowerStr (unit?.getD []) = L "lb" ∨ lowerStr (unit?.getD []) = L "lbs"
            ∨ lowerStr (unit?.getD []) = L "pound" ∨ lowerStr (unit?.getD []) = L "pounds"
        · rw [if_pos hlb] at h
          rw [← Option.some.inj h]
          exact pyRound2_nonneg (le_of_lt (lt_of_not_le hq))
        · rw [if_neg hlb] at h
          cases hscan : Extract.itemSpecificScan q
              (lowerStr (unit?.getD [])) (lowerStr name) cfg.item_specific with
          | some r =>
            rw [hscan] at h
            simp only at h
            rw [h] at hscan
            exact itemSpecificScan_nonneg hscan
          | none =>
            rw [hscan] at h
            simp only at h
            by_cases hge : pyRound2 (Extract.unitFloor cfg
                (Extract.foodAdjust cfg ((lookupL cfg.base (L "default")).getD 5) (lowerStr name))
                (lowerStr (unit?.getD [])) (lowerStr name) * q) ≥ 0
            · rw [if_pos hge] at h
              rw [← Option.some.inj h]
              exact hge
            · rw [if_neg hge] at h
              exact Option.noConfusion h

/-- C5 witness: the theorem applied at quantity 0 (null result) and at
a concrete positive quantity. -/
theorem c5_witness :
    Extract.estimate_weight Extract.emptyWeightConfig (some 0) none (L "apples") = none ∧
    ∀ w, Extract.estimate_weight Extract.emptyWeightConfig (some 2)
        (some (L "case")) (L "apples") = some w → 0 ≤ w :=
  ⟨(c5_estimate_weight Extract.emptyWeightConfig (some 0) none (L "apples")).1
      (Or.inr ⟨0, rfl, le_refl 0⟩),
   fun w h =>
    (c5_estimate_weight Extract.emptyWeightConfig (some 2)
      (some (L "case")) (L "apples")).2 w h⟩

end MutualAid

namespace MutualAid

/-! ## Claim C3 — the "NA4J took 2 crates milk to Love Fridge" scenario -/

set_option maxRecDepth 100000 in
set_option maxHeartbeats 4000000 in
/-- C3: FALSE on the code.  For this session text the drop-off
extractor's destination-org prefix pattern (`^(...)\s+took\b`) fires
before any "to X" alternative can, returning `"NA4J"`, never
`"Love Fridge"`; and the item parser's leading-filler strip
(`re.sub(r"^[^0-9~]*", ...)`) cuts at the digit inside `"NA4J"`, so the
single emitted item is `{name: "j took 2 crates milk to love fridge",
quantity: 4, unit: null}` — no `{milk, 2, crate}` item exists. -/
theorem c3_counterexample :
    Extract.extract_dropoff_location (L "NA4J took 2 crates milk to Love Fridge")
        ≠ L "Love Fridge" ∧
    ¬ ∃ i ∈ Extract.parse_items Extract.emptyWeightConfig
        (L "NA4J took 2 crates milk to Love Fridge"),
      i.name = L "milk" ∧ i.quantity = some 2 ∧ i.unit = some (L "crate") := by
  constructor
  · decide
  · decide

set_option maxRecDepth 100000 in
set_option maxHeartbeats 4000000 in
/-- C3 (amended): what the code actually produces for
`"NA4J took 2 crates milk to Love Fridge"` — raw drop-off location
`"NA4J"`, raw rescue location empty, direction `"outbound"` (this part
of the original claim holds), and exactly one item, with name
`"j took 2 crates milk to love fridge"`, quantity 4, no unit and
subcategory `"drinks"` — for every weight configuration. -/
theorem c3_amended (cfg : Extract.WeightConfig) :
    Extract.extract_dropoff_location (L "NA4J took 2 crates milk to Love Fridge")
        = L "NA4J" ∧
    Extract.extract_rescue_location (L "NA4J took 2 crates milk to Love Fridge") = [] ∧
    Extract.detect_direction (L "NA4J took 2 crates milk to Love Fridge")
        (Extract.extract_rescue_location (L "NA4J took 2 crates milk to Love Fridge"))
        (Extract.extract_dropoff_location (L "NA4J took 2 crates milk to Love Fridge"))
        = L "outbound" ∧
    (Extract.parse_items cfg (L "NA4J took 2 crates milk to Love Fridge")).map
        (fun i => (i.name, i.quantity, i.unit, i.subcategory)) =
      [(L "j took 2 crates milk to love fridge", some 4, none, L "drinks")] :=
  ⟨by decide, by decide, by decide, rfl⟩

/-! ## Claim C4 — the "Picked up 5 cases bananas ..." scenario -/

set_option maxRecDepth 100000 in
set_option maxHeartbeats 4000000 in
/-- C4: FALSE on the code.  `extract_rescue_location` has no pattern
matching "Picked up <items> from X" (its "picked up ... from" pattern
requires "from" to follow "picked up" directly, modulo "some"/
"produce"), so the rescue location is empty; with both locations empty
and no direction phrase present the direction is `"unknown"`, not
`"inbound"`; and the second item's name keeps the trailing
"from Aldi Wicker Park". -/
theorem c4_counterexample :
    Extract.extract_rescue_location
        (L "Picked up 5 cases bananas and 3 boxes lettuce from Aldi Wicker Park")
        ≠ L "Aldi Wicker Park" ∧
    Extract.detect_direction
        (L "Picked up 5 cases bananas and 3 boxes lettuce from Aldi Wicker Park")
        (Extract.extract_rescue_location
          (L "Picked up 5 cases bananas and 3 boxes lettuce from Aldi Wicker Park"))
        (Extract.extract_dropoff_location
          (L "Picked up 5 cases bananas and 3 boxes lettuce from Aldi Wicker Park"))
        ≠ L "inbound" ∧
    (Extract.parse_items Extract.emptyWeightConfig
        (L "Picked up 5 cases bananas and 3 boxes lettuce from Aldi Wicker Park")).map
        (fun i => (i.name, i.quantity, i.unit))
      ≠ [(L "bananas", some 5, some (L "case")), (L "lettuce", some 3, some (L "box"))] := by
  refine ⟨by decide, by decide, by decide⟩

set_option maxRecDepth 100000 in
set_option maxHeartbeats 4000000 in
/-- C4 (amended): what the code actually produces for
`"Picked up 5 cases bananas and 3 boxes lettuce from Aldi Wicker Park"`
— empty rescue and drop-off locations, direction `"unknown"`, and items
`[{bananas, 5, case}, {lettuce from aldi wicker park, 3, box}]` — for
every weight configuration. -/
theorem c4_amended (cfg : Extract.WeightConfig) :
    Extract.extract_rescue_location
        (L "Picked up 5 cases bananas and 3 boxes lettuce from Aldi Wicker Park") = [] ∧
    Extract.extract_dropoff_location
        (L "Picked up 5 cases bananas and 3 boxes lettuce from Aldi Wicker Park") = [] ∧
    Extract.detect_direction
        (L "Picked up 5 cases bananas and 3 boxes lettuce from Aldi Wicker Park")
        (Extract.extract_rescue_location
          (L "Picked up 5 cases bananas and 3 boxes lettuce from Aldi Wicker Park"))
        (Extract.extract_dropoff_location
          (L "Picked up 5 cases bananas and 3 boxes lettuce from Aldi Wicker Park"))
        = L "unknown" ∧
    (Extract.parse_items cfg
        (L "Picked up 5 cases bananas and 3 boxes lettuce from Aldi Wicker Park")).map
        (fun i => (i.name, i.quantity, i.unit)) =
      [(L "bananas", some 5, some (L "case")),
       (L "lettuce from aldi wicker park", some 3, some (L "box"))] :=
  ⟨by decide, by decide, by decide, rfl⟩

/-! ## Claim C8 — record items vs. flattened section items -/

theorem flattenItems_append (a b : List Extract.Section) :
    Extract.flattenItems (a ++ b) = Extract.flattenItems a ++ Extract.flattenItems b := by
  simp [Extract.flattenItems]

set_option maxRecDepth 100000 in
set_option maxHeartbeats 4000000 in
/-- C8: FALSE on the code.  In a record where the orchestrator appends
a synthetic section for a drop-off location (here: a session
`"Aldi:\n2 cases milk\ntook to Love Fridge"`, with one parsed section
under "Aldi" and drop-off "Love Fridge" not among the section
locations), the synthetic section carries a COPY of the flattened
items, so flattening the record's sections yields the items twice, not
the items field. -/
theorem c8_counterexample :
    Extract.flattenItems (Extract.assembleRecord Extract.emptyWeightConfig 0
        ⟨L "u", L "t0", L "t0", none, none,
         [L "Aldi:", L "2 cases milk", L "took to Love Fridge"], [L "t0"], []⟩).sections ≠
      (Extract.assembleRecord Extract.emptyWeightConfig 0
        ⟨L "u", L "t0", L "t0", none, none,
         [L "Aldi:", L "2 cases milk", L "took to Love Fridge"], [L "t0"], []⟩).items ∧
    Extract.flattenItems (Extract.assembleRecord Extract.emptyWeightConfig 0
        ⟨L "u", L "t0", L "t0", none, none,
         [L "Aldi:", L "2 cases milk", L "took to Love Fridge"], [L "t0"], []⟩).sections =
      (Extract.assembleRecord Extract.emptyWeightConfig 0
        ⟨L "u", L "t0", L "t0", none, none,
         [L "Aldi:", L "2 cases milk", L "took to Love Fridge"], [L "t0"], []⟩).items ++
      (Extract.assembleRecord Extract.emptyWeightConfig 0
        ⟨L "u", L "t0", L "t0", none, none,
         [L "Aldi:", L "2 cases milk", L "took to Love Fridge"], [L "t0"], []⟩).items := by
  constructor
  · -- the flattened sections have two items, the items field has one
    intro h
    exact absurd (congrArg List.length h) (by decide)
  · rfl

/-- C8 (amended): the record's `items` equals the flattened items of
the sections the segmenter produced; when the orchestrator appends a
synthetic drop-off section, flattening the record's `sections` field
instead yields `items ++ items` (the synthetic section repeats the
flattened items); when no sections were produced, `items` equals the
flattened sections only if some location was found (otherwise
`sections` is empty while `items` may not be). -/
theorem c8_amended (cfg : Extract.WeightConfig) (idx : Nat) (group : Extract.Group) :
    let t := joinWith (L "\n") group.messages
    let secs := Extract.parse_sections cfg t
    let drop := Extract.extract_dropoff_location t
    let rescue := Extract.extract_rescue_location t
    let r := Extract.assembleRecord cfg idx group
    (secs ≠ [] → ¬ (drop ≠ [] ∧ drop ∉ secs.map Extract.Section.location) →
      r.items = Extract.flattenItems r.sections) ∧
    (secs ≠ [] → (drop ≠ [] ∧ drop ∉ secs.map Extract.Section.location) →
      Extract.flattenItems r.sections = r.items ++ r.items) ∧
    (secs = [] → (rescue ≠ [] ∨ drop ≠ []) →
      r.items = Extract.flattenItems r.sections) ∧
    (secs = [] → rescue = [] → drop = [] →
      r.sections = [] ∧ r.items = Extract.parse_items cfg t) := by
  intro t secs drop rescue r
  refine ⟨?_, ?_, ?_, ?_⟩
  · intro hne hsynth
    show (Extract.assembleRecord cfg idx group).items =
      Extract.flattenItems (Extract.assembleRecord cfg idx group).sections
    unfold Extract.assembleRecord
    dsimp only
    rw [if_neg hne, if_neg hsynth]
  · intro hne hsynth
    show Extract.flattenItems (Extract.assembleRecord cfg idx group).sections =
      (Extract.assembleRecord cfg idx group).items ++
      (Extract.assembleRecord cfg idx group).items
    unfold Extract.assembleRecord
    dsimp only
    rw [if_neg hne, if_pos hsynth, flattenItems_append]
    simp [Extract.flattenItems]
  · intro hnil hloc
    show (Extract.assembleRecord cfg idx group).items =
      Extract.flattenItems (Extract.assembleRecord cfg idx group).sections
    unfold Extract.assembleRecord
    dsimp only
    rw [if_pos hnil, if_pos hloc]
    simp [Extract.flattenItems]
  · intro hnil hres hdrop
    constructor
    · show (Extract.assembleRecord cfg idx group).sections = []
      unfold Extract.assembleRecord
      dsimp only
      rw [if_pos hnil, if_neg (by push_neg; exact ⟨hres, hdrop⟩)]
      exact hnil
    · show (Extract.assembleRecord cfg idx group).items = Extract.parse_items cfg t
      unfold Extract.assembleRecord
      dsimp only
      rw [if_pos hnil]

set_option maxRecDepth 100000 in
set_option maxHeartbeats 4000000 in
/-- C8 witness: the amended theorem's synthetic-section case applied to
the concrete session `"Aldi:\n2 cases milk\ntook to Love Fridge"`. -/
theorem c8_witness :
    Extract.flattenItems (Extract.assembleRecord Extract.emptyWeightConfig 0
        ⟨L "u", L "t0", L "t0", none, none,
         [L "Aldi:", L "2 cases milk", L "took to Love Fridge"], [L "t0"], []⟩).sections =
      (Extract.assembleRecord Extract.emptyWeightConfig 0
        ⟨L "u", L "t0", L "t0", none, none,
         [L "Aldi:", L "2 cases milk", L "took to Love Fridge"], [L "t0"], []⟩).items ++
      (Extract.assembleRecord Extract.emptyWeightConfig 0
        ⟨L "u", L "t0", L "t0", none, none,
         [L "Aldi:", L "2 cases milk", L "took to Love Fridge"], [L "t0"], []⟩).items :=
  (c8_amended Extract.emptyWeightConfig 0
      ⟨L "u", L "t0", L "t0", none, none,
       [L "Aldi:", L "2 cases milk", L "took to Love Fridge"], [L "t0"], []⟩).2.1
    (by decide) (by decide)

/-! ## Grouping lemmas (claims C6 and C9) -/

theorem mem_insSorted {x y : Extract.MessageRow} :
    ∀ {l}, y ∈ Extract.insSorted x l ↔ y = x ∨ y ∈ l := by
  intro l
  induction l with
  | nil => simp [Extract.insSorted]
  | cons z zs ih =>
    unfold Extract.insSorted
    split_ifs with hle
    · simp [List.mem_cons]
    · simp only [List.mem_cons, ih]
      tauto

theorem insSorted_pairwise {x : Extract.MessageRow} :
    ∀ {l}, List.Pairwise dtLE l → List.Pairwise dtLE (Extract.insSorted x l) := by
  intro l
  induction l with
  | nil => intro _; simp [Extract.insSorted, dtLE]
  | cons z zs ih =>
    intro h
    unfold Extract.insSorted
    split_ifs with hle
    · refine List.Pairwise.cons ?_ h
      intro w hw
      rcases List.mem_cons.mp hw with rfl | hw
      · exact hle
      · exact le_trans hle (List.rel_of_pairwise_cons h hw)
    · refine List.Pairwise.cons ?_ (ih h.tail)
      intro w hw
      rcases mem_insSorted.mp hw with rfl | hw
      · exact le_of_lt (lt_of_not_le hle)
      · exact List.rel_of_pairwise_cons h hw

theorem sortByDt_pairwise (l : List Extract.MessageRow) :
    List.Pairwise dtLE (Extract.sortByDt l) := by
  induction l with
  | nil => simp [Extract.sortByDt]
  | cons x xs ih => exact insSorted_pairwise ih

theorem sortByDt_eq_of_pairwise :
    ∀ {l}, List.Pairwise dtLE l → Extract.sortByDt l = l := by
  intro l
  induction l with
  | nil => intro _; rfl
  | cons x xs ih =>
    intro h
    show Extract.insSorted x (Extract.sortByDt xs) = x :: xs
    rw [ih h.tail]
    cases xs with
    | nil => rfl
    | cons z zs =>
      unfold Extract.insSorted
      split_ifs with hle
      · rfl
      · exact absurd (List.rel_of_pairwise_cons h (List.mem_cons_self z zs)) hle

theorem joinsGroup_spec {delta : Int} {g : Extract.Group} {row : Extract.MessageRow}
    (h : Extract.joinsGroup delta g row = true) :
    row.user = g.user ∧ ∃ a b, row.dt = some a ∧ g.last_dt = some b ∧ a - b ≤ delta := by
  unfold Extract.joinsGroup at h
  rw [Bool.and_eq_true] at h
  obtain ⟨h1, h2⟩ := h
  refine ⟨of_decide_eq_true h1, ?_⟩
  cases hr : row.dt with
  | none => rw [hr] at h2; cases hg : g.last_dt <;> rw [hg] at h2 <;> exact Bool.noConfusion h2
  | some a =>
    cases hg : g.last_dt with
    | none => rw [hr, hg] at h2; exact Bool.noConfusion h2
    | some b =>
      rw [hr, hg] at h2
      exact ⟨a, b, rfl, rfl, of_decide_eq_true h2⟩

theorem newGroup_inv (row : Extract.MessageRow) : groupInv (Extract.newGroup row) := by
  refine ⟨rfl, rfl, by simp [Extract.newGroup], ?_, ⟨row, rfl, rfl⟩, ?_⟩
  · intro r hr
    rcases List.mem_singleton.mp hr with rfl
    rfl
  · intro r hr _
    rcases List.mem_singleton.mp hr with rfl
    rfl

theorem appendRow_inv {delta : Int} {g : Extract.Group} {row : Extract.MessageRow}
    (hg : groupInv g) (hj : Extract.joinsGroup delta g row = true) :
    groupInv (Extract.appendRow g row) := by
  obtain ⟨hm, ht, hne, hu, ⟨lastR, hlast, hdt⟩, hC9⟩ := hg
  obtain ⟨huser, a, b, hra, hgb, -⟩ := joinsGroup_spec hj
  refine ⟨?_, ?_, ?_, ?_, ?_, ?_⟩
  · simp [Extract.appendRow, hm]
  · simp [Extract.appendRow, ht]
  · simp [Extract.appendRow]
  · intro r hr
    simp only [Extract.appendRow, List.mem_append, List.mem_singleton] at hr
    rcases hr with hr | rfl
    · exact hu r hr
    · exact huser
  · exact ⟨row, by simp [Extract.appendRow, List.getLast?_concat], rfl⟩
  · intro r hr hrdt
    simp only [Extract.appendRow, List.mem_append, List.mem_singleton] at hr
    rcases hr with hr | rfl
    · exfalso
      have hsing := hC9 r hr hrdt
      rw [hsing] at hlast
      simp only [List.getLast?_singleton, Option.some.injEq] at hlast
      rw [← hlast] at hdt
      rw [hrdt] at hdt
      rw [hdt] at hgb
      exact Option.noConfusion hgb
    · rw [hra] at hrdt
      exact Option.noConfusion hrdt

theorem scanGroups_inv (delta : Int) :
    ∀ (rows : List Extract.MessageRow) (cur : Option Extract.Group) (acc : List Extract.Group),
    (∀ g ∈ acc, groupInv g) → (∀ g, cur = some g → groupInv g) →
    ∀ g ∈ Extract.scanGroups delta rows cur acc, groupInv g := by
  intro rows
  induction rows with
  | nil =>
    intro cur acc hacc hcur g hg
    cases cur with
    | none =>
      unfold Extract.scanGroups at hg
      exact hacc g hg
    | some g0 =>
      unfold Extract.scanGroups at hg
      rcases List.mem_append.mp hg with hg | hg
      · exact hacc g hg
      · rcases List.mem_singleton.mp hg with rfl
        exact hcur g rfl
  | cons row rest ih =>
    intro cur acc hacc hcur g hg
    cases cur with
    | none =>
      unfold Extract.scanGroups at hg
      refine ih (some (Extract.newGroup row)) acc hacc ?_ g hg
      intro g' hg'
      cases hg'
      exact newGroup_inv row
    | some g0 =>
      unfold Extract.scanGroups at hg
      by_cases hj : Extract.joinsGroup delta g0 row = true
      · rw [if_pos hj] at hg
        refine ih _ acc hacc ?_ g hg
        intro g' hg'
        cases hg'
        exact appendRow_inv (hcur g0 rfl) hj
      · rw [if_neg hj] at hg
        refine ih _ (acc ++ [g0]) ?_ ?_ g hg
        · intro g' hg'
          rcases List.mem_append.mp hg' with hg' | hg'
          · exact hacc g' hg'
          · rcases List.mem_singleton.mp hg' with rfl
            exact hcur g' rfl
        · intro g' hg'
          cases hg'
          exact newGroup_inv row

theorem scanGroups_flatten (delta : Int) :
    ∀ (rows : List Extract.MessageRow) (cur : Option Extract.Group) (acc : List Extract.Group),
    (Extract.scanGroups delta rows cur acc).flatMap Extract.Group.rows =
      acc.flatMap Extract.Group.rows ++
      (match cur with | some g => g.rows | none => []) ++ rows := by
  intro rows
  induction rows with
  | nil =>
    intro cur acc
    cases cur with
    | none =>
      unfold Extract.scanGroups
      simp
    | some g0 =>
      unfold Extract.scanGroups
      simp [List.flatMap_append]
  | cons row rest ih =>
    intro cur acc
    cases cur with
    | none =>
      unfold Extract.scanGroups
      rw [ih]
      simp [Extract.newGroup]
    | some g0 =>
      unfold Extract.scanGroups
      by_cases hj : Extract.joinsGroup delta g0 row = true
      · rw [if_pos hj, ih]
        simp [Extract.appendRow]
      · rw [if_neg hj, ih]
        simp [Extract.newGroup, List.flatMap_append]

theorem group_messages_rows_flatten (rows : List Extract.MessageRow) (w : Int) :
    (Extract.group_messages rows w).flatMap Extract.Group.rows =
      Extract.sortByDt (rows.filter Extract.usableRow) := by
  unfold Extract.group_messages
  rw [scanGroups_flatten]
  simp

theorem group_messages_inv (rows : List Extract.MessageRow) (w : Int) :
    ∀ g ∈ Extract.group_messages rows w, groupInv g := by
  intro g hg
  unfold Extract.group_messages at hg
  exact scanGroups_inv _ _ none [] (by intro g' h; cases h) (by intro g' h; cases h) g hg

theorem rows_sublist_flatMap {g : Extract.Group} :
    ∀ {L : List Extract.Group}, g ∈ L → g.rows.Sublist (L.flatMap Extract.Group.rows) := by
  intro L h
  induction L with
  | nil => cases h
  | cons hd tl ih =>
    rw [List.flatMap_cons]
    rcases List.mem_cons.mp h with rfl | h
    · exact List.sublist_append_left _ _
    · exact (ih h).trans (List.sublist_append_right _ _)

theorem flatMap_messages_eq {L : List Extract.Group}
    (h : ∀ g ∈ L, g.messages = g.rows.map Extract.MessageRow.text) :
    L.flatMap Extract.Group.messages =
      (L.flatMap Extract.Group.rows).map Extract.MessageRow.text := by
  induction L with
  | nil => rfl
  | cons hd tl ih =>
    rw [List.flatMap_cons, List.flatMap_cons, List.map_append,
      h hd (List.mem_cons_self hd tl),
      ih (fun g hg => h g (List.mem_cons_of_mem hd hg))]

/-! ## Claim C6 — grouping invariants and order preservation -/

/-- C6: the order-reproduction part of the claim is FALSE on the code
for input sequences that are not already chronological: `group_messages`
stably SORTS the filtered events by timestamp before scanning, so for
two same-author events given out of order the concatenated session
messages come back in sorted order, not input order. -/
theorem c6_counterexample :
    (Extract.group_messages
        [⟨L "t1", some 100, L "a", L "x", L "message", L ""⟩,
         ⟨L "t0", some 0, L "a", L "y", L "message", L ""⟩] 30).flatMap
        Extract.Group.messages ≠
      ([(⟨L "t1", some 100, L "a", L "x", L "message", L ""⟩ : Extract.MessageRow),
        ⟨L "t0", some 0, L "a", L "y", L "message", L ""⟩].filter
          Extract.usableRow).map Extract.MessageRow.text := by
  decide

/-- C6 (amended): for every input event sequence, every produced
session is non-empty and single-author with its stored message list
mirroring its events, event timestamps within a session are
monotonically non-decreasing (unparseable ones counted as the epoch
minimum, as the sort does), and concatenating all session message lists
in output order reproduces the STABLY TIME-SORTED filtered input — which
equals the filtered input order exactly whenever the filtered input is
already chronologically non-decreasing. -/
theorem c6_grouping (rows : List Extract.MessageRow) (w : Int) :
    (∀ g ∈ Extract.group_messages rows w,
      g.messages ≠ [] ∧
      g.messages = g.rows.map Extract.MessageRow.text ∧
      (∀ r ∈ g.rows, r.user = g.user) ∧
      List.Pairwise dtLE g.rows) ∧
    (Extract.group_messages rows w).flatMap Extract.Group.messages =
      (Extract.sortByDt (rows.filter Extract.usableRow)).map Extract.MessageRow.text ∧
    (List.Pairwise dtLE (rows.filter Extract.usableRow) →
      (Extract.group_messages rows w).flatMap Extract.Group.messages =
        (rows.filter Extract.usableRow).map Extract.MessageRow.text) := by
  have hconc : (Extract.group_messages rows w).flatMap Extract.Group.messages =
      (Extract.sortByDt (rows.filter Extract.usableRow)).map Extract.MessageRow.text := by
    rw [flatMap_messages_eq (fun g hg => (group_messages_inv rows w g hg).1),
      group_messages_rows_flatten]
  refine ⟨?_, hconc, ?_⟩
  · intro g hg
    obtain ⟨hm, ht, hne, hu, hlast, hC9⟩ := group_messages_inv rows w g hg
    refine ⟨?_, hm, hu, ?_⟩
    · rw [hm]
      simpa using hne
    · have hsub := rows_sublist_flatMap hg
      rw [group_messages_rows_flatten] at hsub
      exact (sortByDt_pairwise _).sublist hsub
  · intro hsorted
    rw [hconc, sortByDt_eq_of_pairwise hsorted]

/-- C6 witness: the amended theorem applied to a concrete already
chronological two-event sequence. -/
theorem c6_witness :
    (Extract.group_messages
        [⟨L "t0", some 0, L "a", L "y", L "message", L ""⟩,
         ⟨L "t1", some 100, L "a", L "x", L "message", L ""⟩] 30).flatMap
        Extract.Group.messages =
      ([(⟨L "t0", some 0, L "a", L "y", L "message", L ""⟩ : Extract.MessageRow),
        ⟨L "t1", some 100, L "a", L "x", L "message", L ""⟩].filter
          Extract.usableRow).map Extract.MessageRow.text :=
  (c6_grouping
      [⟨L "t0", some 0, L "a", L "y", L "message", L ""⟩,
       ⟨L "t1", some 100, L "a", L "x", L "message", L ""⟩] 30).2.2
    (by decide)

/-! ## Claim C9 — events without parseable timestamps never coalesce -/

/-- C9: an event whose timestamp is absent always forms a
single-event session: it never joins the previous session (the append
condition requires `row.dt` truthy) and nothing is ever appended after
it (the append condition requires the session's `last_dt` truthy, which
such a singleton session lacks) — regardless of authors. -/
theorem c9_unparseable_singleton (rows : List Extract.MessageRow) (w : Int) :
    ∀ g ∈ Extract.group_messages rows w, ∀ r ∈ g.rows, r.dt = none → g.rows = [r] := by
  intro g hg r hr hdt
  exact (group_messages_inv rows w g hg).2.2.2.2.2 r hr hdt

/-- C9 witness: in a run where a timestamp-less event is followed by a
same-author timestamped event, the theorem pins its session to the
singleton. -/
theorem c9_witness :
    ((Extract.group_messages
        [⟨L "t0", some 0, L "a", L "x", L "message", L ""⟩,
         ⟨L "", none, L "a", L "y", L "message", L ""⟩] 30).headD
      ⟨[], [], [], none, none, [], [], []⟩).rows =
      [⟨L "", none, L "a", L "y", L "message", L ""⟩] :=
  c9_unparseable_singleton
    [⟨L "t0", some 0, L "a", L "x", L "message", L ""⟩,
     ⟨L "", none, L "a", L "y", L "message", L ""⟩] 30
    _ (by decide) _ (by decide) rfl

/-! ## Engine lemmas (claims C7 and C10) -/

theorem mem_of_head? {α : Type} {l : List α} {a : α} (h : l.head? = some a) : a ∈ l := by
  cases l with
  | nil => exact Option.noConfusion h
  | cons x xs =>
    rw [List.head?_cons] at h
    rw [← Option.some.inj h]
    exact List.mem_cons_self x xs

theorem run_pred_inv {s : List Char} {p : Char → Bool} {fuel i : Nat} {caps : Caps}
    {r : Caps × Nat} (h : r ∈ run s fuel (.pred p) i caps) :
    r = (caps, i + 1) ∧ ∃ c, s.get? i = some c ∧ p c = true := by
  cases fuel with
  | zero => simp [run] at h
  | succ fuel =>
    unfold run at h
    cases hc : s.get? i with
    | none => rw [hc] at h; simp at h
    | some c =>
      rw [hc] at h
      dsimp only at h
      by_cases hp : p c = true
      · rw [if_pos hp] at h
        rcases List.mem_singleton.mp h with rfl
        exact ⟨rfl, c, rfl, hp⟩
      · rw [if_neg hp] at h
        simp at h

theorem run_seq_inv {s : List Char} {a b : RE} {fuel i : Nat} {caps : Caps}
    {r : Caps × Nat} (h : r ∈ run s fuel (.seq a b) i caps) :
    ∃ fuel', fuel = fuel' + 1 ∧
      ∃ r₁, r₁ ∈ run s fuel' a i caps ∧ r ∈ run s fuel' b r₁.2 r₁.1 := by
  cases fuel with
  | zero => simp [run] at h
  | succ fuel =>
    unfold run at h
    obtain ⟨r₁, h₁, h₂⟩ := List.mem_flatMap.mp h
    exact ⟨fuel, rfl, r₁, h₁, h₂⟩

theorem run_caps_structure {s : List Char} :
    ∀ (fuel : Nat) (re : RE) (i : Nat) (caps : Caps) (r : Caps × Nat),
    r ∈ run s fuel re i caps →
    ∃ adds, r.1 = adds ++ caps ∧ ∀ e ∈ adds, e.1 ∈ groupIdxs re := by
  intro fuel
  induction fuel with
  | zero => intro re i caps r h; simp [run] at h
  | succ fuel ih =>
    intro re i caps r h
    cases re with
    | eps =>
      unfold run at h
      rcases List.mem_singleton.mp h with rfl
      exact ⟨[], rfl, by simp⟩
    | pred p =>
      obtain ⟨rfl, -⟩ := run_pred_inv h
      exact ⟨[], rfl, by simp⟩
    | seq a b =>
      unfold run at h
      obtain ⟨r₁, h₁, h₂⟩ := List.mem_flatMap.mp h
      obtain ⟨adds₁, he₁, hm₁⟩ := ih a i caps r₁ h₁
      obtain ⟨adds₂, he₂, hm₂⟩ := ih b r₁.2 r₁.1 r h₂
      refine ⟨adds₂ ++ adds₁, by rw [he₂, he₁, List.append_assoc], ?_⟩
      intro e he
      unfold groupIdxs
      rcases List.mem_append.mp he with he | he
      · exact List.mem_append_right _ (hm₂ e he)
      · exact List.mem_append_left _ (hm₁ e he)
    | alt a b =>
      unfold run at h
      rcases List.mem_append.mp h with h | h
      · obtain ⟨adds, he, hm⟩ := ih a i caps r h
        exact ⟨adds, he, fun e hme => by
          unfold groupIdxs; exact List.mem_append_left _ (hm e hme)⟩
      · obtain ⟨adds, he, hm⟩ := ih b i caps r h
        exact ⟨adds, he, fun e hme => by
          unfold groupIdxs; exact List.mem_append_right _ (hm e hme)⟩
    | bound lo hi lzy a =>
      unfold run at h
      have hgo : ∀ r', r' ∈ (if hi = some 0 then ([] : List (Caps × Nat))
          else (run s fuel a i caps).flatMap fun rr =>
            if rr.2 ≤ i then []
            else run s fuel (.bound (lo - 1) (hi.map (· - 1)) lzy a) rr.2 rr.1) →
          ∃ adds, r'.1 = adds ++ caps ∧ ∀ e ∈ adds, e.1 ∈ groupIdxs (.bound lo hi lzy a) := by
        intro r' hr'
        split_ifs at hr' with h0
        · simp at hr'
        · obtain ⟨r₁, h₁, h₂⟩ := List.mem_flatMap.mp hr'
          obtain ⟨adds₁, he₁, hm₁⟩ := ih a i caps r₁ h₁
          split_ifs at h₂ with hle
          · simp at h₂
          · obtain ⟨adds₂, he₂, hm₂⟩ := ih _ r₁.2 r₁.1 r' h₂
            refine ⟨adds₂ ++ adds₁, by rw [he₂, he₁, List.append_assoc], ?_⟩
            intro e he
            rcases List.mem_append.mp he with he | he
            · exact hm₂ e he
            · exact hm₁ e he
      have hstop : ∀ r', r' ∈ (if lo = 0 then [(caps, i)] else ([] : List (Caps × Nat))) →
          ∃ adds, r'.1 = adds ++ caps ∧ ∀ e ∈ adds, e.1 ∈ groupIdxs (.bound lo hi lzy a) := by
        intro r' hr'
        split_ifs at hr'
        · rcases List.mem_singleton.mp hr' with rfl
          exact ⟨[], rfl, by simp⟩
        · simp at hr'
      dsimp only at h
      cases lzy with
      | true =>
        rw [if_pos rfl] at h
        rcases List.mem_append.mp h with h | h
        · exact hstop r h
        · exact hgo r h
      | false =>
        rw [if_neg (by simp)] at h
        rcases List.mem_append.mp h with h | h
        · exact hgo r h
        · exact hstop r h
    | group n a =>
      unfold run at h
      obtain ⟨r₁, h₁, he⟩ := List.mem_map.mp h
      obtain ⟨adds₁, he₁, hm₁⟩ := ih a i caps r₁ h₁
      refine ⟨(n, i, r₁.2) :: adds₁, ?_, ?_⟩
      · rw [← he]
        simp [he₁]
      · intro e hme
        unfold groupIdxs
        rcases List.mem_cons.mp hme with rfl | hme
        · exact List.mem_cons_self _ _
        · exact List.mem_cons_of_mem _ (hm₁ e hme)
    | look a =>
      unfold run at h
      split_ifs at h
      · simp at h
      · rcases List.mem_singleton.mp h with rfl
        exact ⟨[], rfl, by simp⟩
    | wordB =>
      unfold run at h
      split_ifs at h
      · rcases List.mem_singleton.mp h with rfl
        exact ⟨[], rfl, by simp⟩
      · simp at h
    | lineEnd =>
      unfold run at h
      split_ifs at h
      · rcases List.mem_singleton.mp h with rfl
        exact ⟨[], rfl, by simp⟩
      · simp at h

end MutualAid
namespace MutualAid

theorem sliceL_nil {s : List Char} {i : Nat} : sliceL s i i = [] := by
  simp [sliceL]

theorem sliceL_cons {s : List Char} {i j : Nat} {c : Char}
    (hc : s.get? i = some c) (hij : i < j) :
    sliceL s i j = c :: sliceL s (i + 1) j := by
  have hlen : i < s.length := by
    by_contra hge
    rw [List.get?_eq_none.mpr (le_of_not_lt hge)] at hc
    exact Option.noConfusion hc
  have hgc : s[i] = c := by
    rw [List.get?_eq_getElem? ] at hc
    rw [List.getElem?_eq_getElem hlen] at hc
    exact Option.some.inj hc
  unfold sliceL
  rw [List.drop_eq_getElem_cons hlen, hgc]
  have : j - i = (j - (i + 1)) + 1 := by omega
  rw [this, List.take_succ_cons]

theorem sliceL_split {s : List Char} {i m j : Nat} (him : i ≤ m) (hmj : m ≤ j) :
    sliceL s i j = sliceL s i m ++ sliceL s m j := by
  unfold sliceL
  have h1 : j - i = (m - i) + (j - m) := by omega
  rw [h1, List.take_add, List.drop_drop]
  have h2 : i + (m - i) = m := by omega
  rw [h2]

theorem run_boundPred_digits {s : List Char} {p : Char → Bool} :
    ∀ (fuel lo : Nat) (i : Nat) (caps : Caps) (r : Caps × Nat),
    r ∈ run s fuel (.bound lo none false (.pred p)) i caps →
    r.1 = caps ∧ i ≤ r.2 ∧ (sliceL s i r.2).all p = true ∧
      (lo ≠ 0 → sliceL s i r.2 ≠ []) := by
  intro fuel
  induction fuel with
  | zero => intro lo i caps r h; simp [run] at h
  | succ fuel ih =>
    intro lo i caps r h
    unfold run at h
    dsimp only at h
    rw [if_neg (by simp)] at h
    rcases List.mem_append.mp h with h | h
    · -- go branch
      rw [if_neg (by simp)] at h
      obtain ⟨r₁, h₁, h₂⟩ := List.mem_flatMap.mp h
      obtain ⟨rfl, c, hc, hpc⟩ := run_pred_inv h₁
      rw [if_neg (by omega)] at h₂
      obtain ⟨hcaps, hle, hall, -⟩ := ih (lo - 1) (i + 1) caps r h₂
      have hij : i < r.2 := by omega
      have hslice := sliceL_cons hc hij
      refine ⟨hcaps, by omega, ?_, ?_⟩
      · rw [hslice, List.all_cons, hpc, hall]
        rfl
      · intro _
        rw [hslice]
        exact List.cons_ne_nil c _
    · -- stop branch
      split_ifs at h with hlo
      · rcases List.mem_singleton.mp h with rfl
        refine ⟨rfl, le_refl i, by rw [sliceL_nil]; rfl, ?_⟩
        intro hne
        exact absurd hlo hne
      · simp at h

theorem all_takeWhile_dropWhile {p : Char → Bool} :
    ∀ {d : List Char}, d.all p = true → d.takeWhile p = d ∧ d.dropWhile p = [] := by
  intro d
  induction d with
  | nil => intro _; exact ⟨rfl, rfl⟩
  | cons c cs ih =>
    intro h
    rw [List.all_cons, Bool.and_eq_true] at h
    rw [List.takeWhile_cons, List.dropWhile_cons, h.1]
    simp only [if_true]
    exact ⟨by rw [(ih h.2).1], (ih h.2).2⟩

theorem takeWhile_dropWhile_append (p : Char → Bool) (c : Char) (rest : List Char)
    (hpc : p c = false) :
    ∀ {d : List Char}, d.all p = true →
      (d ++ c :: rest).takeWhile p = d ∧ (d ++ c :: rest).dropWhile p = c :: rest := by
  intro d
  induction d with
  | nil =>
    intro _
    rw [List.nil_append, List.takeWhile_cons, List.dropWhile_cons, hpc]
    exact ⟨rfl, rfl⟩
  | cons x xs ih =>
    intro h
    rw [List.all_cons, Bool.and_eq_true] at h
    rw [List.cons_append, List.takeWhile_cons, List.dropWhile_cons, h.1]
    simp only [if_true]
    exact ⟨by rw [(ih h.2).1], (ih h.2).2⟩

theorem parseDecimal_digits {d : List Char} (hne : d ≠ []) (hall : d.all isDigitC = true) :
    parseDecimal d ≠ none := by
  unfold parseDecimal
  have hta := all_takeWhile_dropWhile hall
  dsimp only
  rw [hta.1, hta.2, if_neg hne]
  simp

theorem parseDecimal_dot {d₁ d₂ : List Char} (h1 : d₁ ≠ []) (ha1 : d₁.all isDigitC = true)
    (h2 : d₂ ≠ []) (ha2 : d₂.all isDigitC = true) :
    parseDecimal (d₁ ++ '.' :: d₂) ≠ none := by
  unfold parseDecimal
  have hdot : isDigitC '.' = false := by decide
  have hta := takeWhile_dropWhile_append isDigitC '.' d₂ hdot ha1
  have hcond : (decide (d₂ ≠ []) && d₂.all isDigitC) = true := by
    rw [Bool.and_eq_true]
    exact ⟨by simpa using h2, ha2⟩
  dsimp only
  rw [hta.1, hta.2, if_neg h1]
  change (if (decide (d₂ ≠ []) && d₂.all isDigitC) = true then
      some ((digitsToNat d₁ : ℚ) + (digitsToNat d₂ : ℚ) / 10 ^ d₂.length)
    else none) ≠ none
  rw [if_pos hcond]
  simp



theorem sliceL_ne_nil_lt {s : List Char} {i j : Nat} (h : sliceL s i j ≠ []) : i < j := by
  by_contra hle
  apply h
  unfold sliceL
  have : j - i = 0 := by omega
  rw [this, List.take_zero]

theorem run_qtyRE_spec {s : List Char} {fuel i : Nat} {caps : Caps} {r : Caps × Nat}
    (h : r ∈ run s fuel Extract.qtyRE i caps) :
    r.1 = caps ∧ parseDecimal (sliceL s i r.2) ≠ none := by
  unfold Extract.qtyRE at h
  obtain ⟨f1, rfl, r₁, h₁, h₂⟩ := run_seq_inv h
  obtain ⟨hc₁, hle₁, hall₁, hne₁⟩ := run_boundPred_digits f1 1 i caps r₁ h₁
  have hne₁' := hne₁ (by omega)
  rw [hc₁] at h₂
  cases f1 with
  | zero => simp [run] at h₂
  | succ f2 =>
    unfold opt at h₂
    unfold run at h₂
    dsimp only at h₂
    rw [if_neg (by simp)] at h₂
    rcases List.mem_append.mp h₂ with h₂ | h₂
    · -- the fractional part is present
      rw [if_neg (by simp)] at h₂
      obtain ⟨r₂, h₃, h₄⟩ := List.mem_flatMap.mp h₂
      obtain ⟨f3, hf3, r₃, h₅, h₆⟩ := run_seq_inv h₃
      obtain ⟨hr₃, c, hgc, hpc⟩ := run_pred_inv h₅
      rw [hr₃] at h₆
      obtain ⟨hc₂, hle₂, hall₂, hne₂⟩ := run_boundPred_digits f3 1 (r₁.2 + 1) caps r₂ h₆
      have hne₂' := hne₂ (by omega)
      have hlt₂ : r₁.2 + 1 < r₂.2 := sliceL_ne_nil_lt hne₂'
      rw [if_neg (by omega)] at h₄
      rw [hc₂] at h₄
      subst hf3
      unfold run at h₄
      dsimp only at h₄
      rw [if_pos (show Option.map (fun x => x - 1) (some 1) = some 0 from rfl)] at h₄
      rw [List.nil_append] at h₄
      rcases List.mem_singleton.mp h₄ with rfl
      refine ⟨rfl, ?_⟩
      have hcdot : c = '.' := of_decide_eq_true hpc
      subst hcdot
      have hsplit1 : sliceL s i r₂.2 = sliceL s i r₁.2 ++ sliceL s r₁.2 r₂.2 :=
        sliceL_split hle₁ (by omega)
      have hsplit2 : sliceL s r₁.2 r₂.2 = '.' :: sliceL s (r₁.2 + 1) r₂.2 :=
        sliceL_cons hgc (by omega)
      show parseDecimal (sliceL s i r₂.2) ≠ none
      rw [hsplit1, hsplit2]
      exact parseDecimal_dot hne₁' hall₁ hne₂' hall₂
    · -- no fractional part
      rw [if_pos rfl] at h₂
      rcases List.mem_singleton.mp h₂ with rfl
      exact ⟨rfl, parseDecimal_digits hne₁' hall₁⟩


theorem itemPattern_eq :
    Extract.itemPattern =
      .seq wsStar (.seq (star (cls (L "-*•["))) (.seq wsStar (.seq (opt (chr '~'))
        (.seq wsStar (.seq (.group 1 Extract.qtyRE) itemPatternTail))))) := rfl

theorem run_capfree {s : List Char} {fuel : Nat} {re : RE} {i : Nat} {caps : Caps}
    {r : Caps × Nat} (h : r ∈ run s fuel re i caps) (hg : groupIdxs re = []) : r.1 = caps := by
  obtain ⟨adds, he, hm⟩ := run_caps_structure fuel re i caps r h
  cases adds with
  | nil => simpa using he
  | cons e t =>
    have := hm e (List.mem_cons_self _ _)
    rw [hg] at this
    exact absurd this (List.not_mem_nil _)

theorem run_group_inv {s : List Char} {n : Nat} {a : RE} {fuel i : Nat} {caps : Caps}
    {r : Caps × Nat} (h : r ∈ run s fuel (.group n a) i caps) :
    ∃ fuel' rq, fuel = fuel' + 1 ∧ rq ∈ run s fuel' a i caps ∧
      r = ((n, i, rq.2) :: rq.1, rq.2) := by
  cases fuel with
  | zero => simp [run] at h
  | succ fuel =>
    unfold run at h
    obtain ⟨rq, hq, he⟩ := List.mem_map.mp h
    exact ⟨fuel, rq, rfl, hq, he.symm⟩

theorem find?_append_of_none {α : Type} {p : α → Bool} {l₁ l₂ : List α}
    (h : ∀ e ∈ l₁, p e = false) : (l₁ ++ l₂).find? p = l₂.find? p := by
  induction l₁ with
  | nil => rfl
  | cons x xs ih =>
    rw [List.cons_append, List.find?_cons_of_neg _ (by simp [h x (List.mem_cons_self x xs)]),
      ih fun e he => h e (List.mem_cons_of_mem x he)]

theorem itemPattern_qty_capture {s : List Char} {caps : Caps} {j : Nat}
    (h : reMatch Extract.itemPattern s = some (caps, j)) :
    parseDecimal ((capGroup s caps 1).getD []) ≠ none := by
  unfold reMatch reMatchAt at h
  have hmem := mem_of_head? h
  rw [itemPattern_eq] at hmem
  obtain ⟨f1, -, r₁, h₁, hmem⟩ := run_seq_inv hmem
  rw [run_capfree h₁ rfl] at hmem
  obtain ⟨f2, -, r₂, h₂, hmem⟩ := run_seq_inv hmem
  rw [run_capfree h₂ rfl] at hmem
  obtain ⟨f3, -, r₃, h₃, hmem⟩ := run_seq_inv hmem
  rw [run_capfree h₃ rfl] at hmem
  obtain ⟨f4, -, r₄, h₄, hmem⟩ := run_seq_inv hmem
  rw [run_capfree h₄ rfl] at hmem
  obtain ⟨f5, -, r₅, h₅, hmem⟩ := run_seq_inv hmem
  rw [run_capfree h₅ rfl] at hmem
  obtain ⟨f6, -, r₆, h₆, hmem⟩ := run_seq_inv hmem
  obtain ⟨f7, rq, -, hq, hr₆⟩ := run_group_inv h₆
  obtain ⟨hqcaps, hqparse⟩ := run_qtyRE_spec hq
  rw [hr₆] at hmem
  dsimp only at hmem
  rw [hqcaps] at hmem
  obtain ⟨adds, hadds, hmadds⟩ := run_caps_structure _ _ _ _ _ hmem
  have hgl : groupIdxs itemPatternTail = [2, 3] := by decide
  have hcaps : caps = adds ++ [(1, r₅.2, rq.2)] := hadds
  have hfind : caps.find? (fun c => c.1 = 1) = some (1, r₅.2, rq.2) := by
    rw [hcaps, find?_append_of_none, List.find?_cons_of_pos _ (by simp)]
    intro e he
    have hmm := hmadds e he
    rw [hgl] at hmm
    simp only [List.mem_cons, List.mem_singleton] at hmm
    simp only [decide_eq_false_iff_not]
    rcases hmm with h2 | h3 | hf
    · omega
    · omega
    · exact absurd hf (List.not_mem_nil _)
  have hcap : capGroup s caps 1 = some (sliceL s r₅.2 rq.2) := by
    unfold capGroup
    rw [hfind]
  rw [hcap]
  exact hqparse

theorem itemGuards_spec {cfg : Extract.WeightConfig} {name : List Char} {qty : Option ℚ}
    {unit_norm : Option (List Char)} {i : Extract.ParsedItem}
    (h : Extract.itemGuards cfg name qty unit_norm = some i) :
    i.quantity = qty ∧
    3 ≤ ((lowerStr i.name).filter (fun c => 'a' ≤ c && c ≤ 'z')).length ∧
    (∀ q, i.quantity = some q → q ≤ 500) ∧
    (i.unit = none → ∀ q, i.quantity = some q → q ≤ 150) := by
  unfold Extract.itemGuards at h
  split_ifs at h with h1 h2 h3 h4 h5 h6 h7 h8 h9
  cases Option.some.inj h
  refine ⟨rfl, ?_, ?_, ?_⟩
  · simp only [Extract.ParsedItem.name] at *
    omega
  · intro q hq
    simp only [Extract.ParsedItem.quantity] at hq
    rw [hq] at h3
    simp at h3
    linarith
  · intro hu q hq
    simp only [Extract.ParsedItem.unit] at hu
    simp only [Extract.ParsedItem.quantity] at hq
    rw [hq] at h4
    rw [hu] at h4
    simp at h4
    linarith

theorem parse_item_segment_inv {cfg : Extract.WeightConfig} {seg : List Char}
    {i : Extract.ParsedItem} (h : Extract.parse_item_segment cfg seg = some i) :
    ∃ seg' caps j name unit_norm,
      reMatch Extract.itemPattern seg' = some (caps, j) ∧
      Extract.itemGuards cfg name (parseDecimal ((capGroup seg' caps 1).getD []))
        unit_norm = some i := by
  unfold Extract.parse_item_segment at h
  split at h
  · exact Option.noConfusion h
  dsimp only at h
  split at h
  · exact Option.noConfusion h
  split at h
  · exact Option.noConfusion h
  split at h
  · exact Option.noConfusion h
  split at h
  next => exact Option.noConfusion h
  next caps snd heq =>
    split at h
    · exact Option.noConfusion h
    exact ⟨_, _, _, _, _, heq, h⟩

/-- C7: every item emitted by `parse_items` passes the rejection filters —
its lower-cased name has at least 3 ASCII-alphabetic characters, its
quantity (when present) is at most 500, and at most 150 when no unit was
recognized; and the line "1000 apples" (quantity 1000, no unit) yields no
item for any weight configuration. -/
theorem c7_item_filters :
    (∀ (cfg : Extract.WeightConfig) (t : List Char), ∀ i ∈ Extract.parse_items cfg t,
      3 ≤ ((lowerStr i.name).filter (fun c => 'a' ≤ c && c ≤ 'z')).length ∧
      (∀ q, i.quantity = some q → q ≤ 500) ∧
      (i.unit = none → ∀ q, i.quantity = some q → q ≤ 150)) ∧
    (∀ cfg : Extract.WeightConfig, Extract.parse_items cfg (L "1000 apples") = []) := by
  constructor
  · intro cfg t i hi
    unfold Extract.parse_items at hi
    obtain ⟨seg, hseg, hsome⟩ := List.mem_filterMap.mp hi
    obtain ⟨seg', caps, j, name, unit_norm, hm, hig⟩ := parse_item_segment_inv hsome
    exact (itemGuards_spec hig).2
  · intro cfg
    rfl

theorem c7_witness :
    ∃ i, i ∈ Extract.parse_items Extract.emptyWeightConfig (L "2 cases milk") ∧
      (3 ≤ ((lowerStr i.name).filter (fun c => 'a' ≤ c && c ≤ 'z')).length ∧
       (∀ q, i.quantity = some q → q ≤ 500) ∧
       (i.unit = none → ∀ q, i.quantity = some q → q ≤ 150)) := by
  have hne : Extract.parse_items Extract.emptyWeightConfig (L "2 cases milk") ≠ [] :=
    List.ne_nil_of_length_pos (by decide)
  exact ⟨_, List.head_mem hne,
    c7_item_filters.1 Extract.emptyWeightConfig (L "2 cases milk") _ (List.head_mem hne)⟩

/-- C10: every item emitted by `parse_items` has a non-null quantity —
group 1 of `ITEM_PATTERN` always captures a parseable numeric token, even
though the item data model allows a null quantity. -/
theorem c10_quantity_present :
    ∀ (cfg : Extract.WeightConfig) (t : List Char), ∀ i ∈ Extract.parse_items cfg t,
      i.quantity ≠ none := by
  intro cfg t i hi
  unfold Extract.parse_items at hi
  obtain ⟨seg, hseg, hsome⟩ := List.mem_filterMap.mp hi
  obtain ⟨seg', caps, j, name, unit_norm, hm, hig⟩ := parse_item_segment_inv hsome
  rw [(itemGuards_spec hig).1]
  exact itemPattern_qty_capture hm

theorem c10_witness :
    ∃ i, i ∈ Extract.parse_items Extract.emptyWeightConfig (L "3 boxes apples") ∧
      i.quantity ≠ none := by
  have hne : Extract.parse_items Extract.emptyWeightConfig (L "3 boxes apples") ≠ [] :=
    List.ne_nil_of_length_pos (by decide)
  exact ⟨_, List.head_mem hne,
    c10_quantity_present Extract.emptyWeightConfig (L "3 boxes apples") _ (List.head_mem hne)⟩

end MutualAid
